import Mathlib

/-!
Verification of the slash-create command context (`src/context.ts`) and of the
rate-limit-aware request dispatcher described in the specification.

The first part embeds `CommandContext` from `src/context.ts` shallowly:
JavaScript objects become structures, truthiness checks become explicit
predicates on `Option` values, thrown errors become `Except.error`, and the
side effects of `_respond` / `requestHandler.request` are collected in an
explicit effect list.

The second part models the Dispatcher / Bucket / GlobalLimiter core.  The
implementation files (`util/requestHandler.ts`, `util/sequentialBucket.ts`)
are not part of the sources at hand, so that component is modelled from the
specification text (each such definition says so in its doc comment).
-/

namespace SlashCreate

/-! ## Part 1: `src/context.ts` data model -/

/-- JS primitive value of a command option (`string | number | boolean`). -/
inductive OptionValue where
  | str (s : String)
  | num (n : Int)
  | bool (b : Bool)
deriving DecidableEq

/-- JS truthiness of an option value: `false`, `0` and the empty string are falsy. -/
def OptionValue.truthy : OptionValue → Bool
  | .str s => s ≠ ""
  | .num n => n ≠ 0
  | .bool b => b

/-- The `ConvertedOption` type of `context.ts`:
`{ [key: string]: ConvertedOption } | string | number | boolean`.
A JS object is modelled as an insertion-ordered association list. -/
inductive ConvertedOption where
  | obj (fields : List (String × ConvertedOption))
  | str (s : String)
  | num (n : Int)
  | bool (b : Bool)

/-- Injection of a primitive option value into `ConvertedOption`. -/
def ConvertedOption.ofValue : OptionValue → ConvertedOption
  | .str s => .str s
  | .num n => .num n
  | .bool b => .bool b

/-- The `CommandOption` shape from `constants.ts` as used by
`CommandContext.convertOptions`: a name, an optional primitive value, and an
optional list of sub-options (`undefined` versus an array, possibly empty). -/
inductive CommandOption where
  | mk (name : String) (value : Option OptionValue) (subs : Option (List CommandOption))

/-- Name of a command option. -/
def CommandOption.name : CommandOption → String
  | .mk n _ _ => n

/-- Value of a command option. -/
def CommandOption.value : CommandOption → Option OptionValue
  | .mk _ v _ => v

/-- Sub-options of a command option (the `options` field). -/
def CommandOption.subs : CommandOption → Option (List CommandOption)
  | .mk _ _ s => s

/-- JS property assignment `m[k] = v` on an object modelled as an ordered
association list: an existing key keeps its position and gets the new value,
a new key is appended. -/
def assignKey : List (String × ConvertedOption) → String → ConvertedOption →
    List (String × ConvertedOption)
  | [], k, v => [(k, v)]
  | kv :: rest, k, v =>
    if kv.1 = k then (k, v) :: rest else kv :: assignKey rest k v

/-- JS property read `m[k]` on an object modelled as an ordered association
list (`none` when the key is absent). -/
def getKey : List (String × ConvertedOption) → String → Option ConvertedOption
  | [], _ => none
  | kv :: rest, k => if kv.1 = k then some kv.2 else getKey rest k

/-- The loop body of `CommandContext.convertOptions` (context.ts lines 228-235),
threading the object under construction through the iteration:
`if (option.options) converted[name] = convertOptions(option.options);
else if (option.value) converted[name] = option.value;`. -/
def convertOptionsFrom (acc : List (String × ConvertedOption)) :
    List CommandOption → List (String × ConvertedOption)
  | [] => acc
  | CommandOption.mk n v subs :: rest =>
    match subs with
    | some os => convertOptionsFrom (assignKey acc n (.obj (convertOptionsFrom [] os))) rest
    | none =>
      match v with
      | some jv =>
        if jv.truthy then convertOptionsFrom (assignKey acc n (.ofValue jv)) rest
        else convertOptionsFrom acc rest
      | none => convertOptionsFrom acc rest
termination_by l => sizeOf l
decreasing_by
  all_goals simp_wf
  all_goals omega

/-- `CommandContext.convertOptions` (context.ts lines 228-235). -/
def convertOptions (options : List CommandOption) : List (String × ConvertedOption) :=
  convertOptionsFrom [] options

/-- The value the specification assigns to one option: an option with
sub-options maps to the recursive conversion of those sub-options, an option
with a truthy value maps to that value, and otherwise the fallback applies
(absent for a falsy or missing value).  Stated from the claim, to be compared
against `convertOptions`. -/
def specConvertedOption (fallback : Option ConvertedOption) (o : CommandOption) :
    Option ConvertedOption :=
  match o.subs with
  | some os => some (.obj (convertOptions os))
  | none =>
    match o.value with
    | some jv => if jv.truthy then some (.ofValue jv) else fallback
    | none => fallback

/-- Allowed-mentions input payload (`MessageAllowedMentions` from util.ts, not
in the sources at hand; its internal shape is irrelevant here). -/
structure MessageAllowedMentions where
  raw : String
deriving DecidableEq

/-- Formatted allowed-mentions payload (`FormattedAllowedMentions` from
util.ts, not in the sources at hand). -/
structure FormattedAllowedMentions where
  raw : String
deriving DecidableEq

/-- Modelled from the spec: `formatAllowedMentions` lives in util.ts, which is
not in the sources at hand; it combines the caller's allowed mentions with the
creator's defaults into a formatted payload (treated as abstract data). -/
def formatAllowedMentions (m : MessageAllowedMentions)
    (d : FormattedAllowedMentions) : FormattedAllowedMentions :=
  ⟨m.raw ++ d.raw⟩

/-- An embed payload (`any[]` entries in context.ts; abstract data here). -/
abbrev Embed := String

/-- The value held by the `content` field of message options after the
normalization in `send`/`edit`.  The source performs
`if (!options.content) options.content = content as string;` even when the
first argument was the options object itself, in which case the object (a
truthy non-string value) ends up in the field; `objRef` records that case. -/
inductive SendContent where
  | str (s : String)
  | objRef
deriving DecidableEq

/-- JS truthiness of the `content` field: `undefined` and `""` are falsy, an
object reference is truthy. -/
def contentTruthy : Option SendContent → Bool
  | none => false
  | some (.str s) => s ≠ ""
  | some .objRef => true

/-- JS truthiness of the `flags` field: `undefined` and `0` are falsy. -/
def flagsTruthy : Option Nat → Bool
  | none => false
  | some n => n ≠ 0

/-- JS truthiness of an optional boolean field. -/
def boolTruthy : Option Bool → Bool
  | none => false
  | some b => b

/-- `EditMessageOptions` (context.ts lines 16-23). -/
structure EditMessageOptions where
  content : Option SendContent := none
  embeds : Option (List Embed) := none
  allowedMentions : Option MessageAllowedMentions := none
deriving DecidableEq

/-- `MessageOptions` (context.ts lines 25-37). -/
structure MessageOptions extends EditMessageOptions where
  tts : Option Bool := none
  flags : Option Nat := none
  ephemeral : Option Bool := none
  includeSource : Option Bool := none
deriving DecidableEq

/-- Modelled from the spec: `InteractionResponseFlags.EPHEMERAL` lives in
constants.ts, which is not in the sources at hand (the ephemeral message
flag of the remote API, value 64). -/
def InteractionResponseFlags.EPHEMERAL : Nat := 64

/-- Modelled from the spec: `InterationResponseType` lives in constants.ts,
which is not in the sources at hand; the four response types used by
context.ts. -/
inductive InterationResponseType where
  | ACKNOWLEDGE
  | ACKNOWLEDGE_WITH_SOURCE
  | CHANNEL_MESSAGE
  | CHANNEL_MESSAGE_WITH_SOURCE
deriving DecidableEq

/-- Modelled from the spec: `Endpoints.FOLLOWUP_MESSAGE` lives in
constants.ts, which is not in the sources at hand; the follow-up message route
for an interaction. -/
def Endpoints.FOLLOWUP_MESSAGE (appID token : String) : String :=
  "/webhooks/" ++ appID ++ "/" ++ token

/-- Modelled from the spec: `Endpoints.MESSAGE` lives in constants.ts, which
is not in the sources at hand; the message route for an interaction, with the
original message as the default target. -/
def Endpoints.MESSAGE (appID token : String) (messageID : Option String) : String :=
  "/webhooks/" ++ appID ++ "/" ++ token ++ "/messages/" ++ messageID.getD "@original"

/-- The `data` object passed to `_respond` on the initial-response path of
`send` (context.ts lines 122-128). -/
structure ResponseMessageData where
  tts : Option Bool
  content : Option SendContent
  embeds : Option (List Embed)
  flags : Option Nat
  allowed_mentions : FormattedAllowedMentions
deriving DecidableEq

/-- The payload handed to the `_respond` callback: `status` plus a body made
of a response type and optional message data. -/
structure RespondPayload where
  status : Nat
  type : InterationResponseType
  data : Option ResponseMessageData
deriving DecidableEq

/-- The body handed to `creator.requestHandler.request` by the follow-up and
edit paths (context.ts lines 138-143 and 176-180). -/
structure RequestBody where
  tts : Option Bool := none
  content : Option SendContent := none
  embeds : Option (List Embed) := none
  allowed_mentions : Option FormattedAllowedMentions := none
deriving DecidableEq

/-- An observable side effect of a `CommandContext` method: a call to the
`_respond` callback or to `creator.requestHandler.request` (the `auth`
argument is `none` where the source omits it). -/
inductive Effect where
  | respond (p : RespondPayload)
  | request (method : String) (url : String) (auth : Option Bool) (body : Option RequestBody)
deriving DecidableEq

/-- Opaque response data returned by `creator.requestHandler.request`
(external input to the methods under study). -/
abbrev ApiData := String

/-- A `Message` as constructed by `new Message(data, this)`
(structures/message.ts is not in the sources at hand; only the data it wraps
matters here). -/
structure Message where
  data : ApiData
deriving DecidableEq

/-- The relevant state of a `CommandContext` (context.ts lines 39-81): the
fields read or written by `send`, `edit`, `delete` and `acknowledge`. -/
structure CommandContext where
  applicationID : String
  interactionToken : String
  invokedAt : Nat
  initiallyResponded : Bool
  creatorAllowedMentions : FormattedAllowedMentions
deriving DecidableEq

/-- The `expired` getter (context.ts lines 84-86):
`this.invokedAt + 1000 * 60 * 15 < Date.now()`. -/
def CommandContext.expired (ctx : CommandContext) (now : Nat) : Bool :=
  ctx.invokedAt + 1000 * 60 * 15 < now

/-- First argument of `send`: `content: string | MessageOptions`. -/
inductive ContentArg where
  | str (s : String)
  | opts (o : MessageOptions)
deriving DecidableEq

/-- First content argument of `edit`: `content: string | EditMessageOptions`. -/
inductive EditContentArg where
  | str (s : String)
  | opts (o : EditMessageOptions)
deriving DecidableEq

/-- Result of `send`: `true` on the initial-response path, a `Message` on the
follow-up path (the source's `Promise<boolean | Message>`). -/
inductive SendResult where
  | initial (b : Bool)
  | followUp (m : Message)
deriving DecidableEq

/-- The allowed-mentions computation shared by `send` and `edit`
(context.ts lines 111-113 and 168-170). -/
def resolveAllowedMentions (ctx : CommandContext)
    (am : Option MessageAllowedMentions) : FormattedAllowedMentions :=
  match am with
  | some m => formatAllowedMentions m ctx.creatorAllowedMentions
  | none => ctx.creatorAllowedMentions

/-- The options object `send` starts from: the first argument when it is the
options object, else the second argument defaulted to `{}` (context.ts lines
100-101). -/
def sendArgOptions (content : ContentArg) (optionsArg : Option MessageOptions) :
    MessageOptions :=
  match content with
  | .opts o => o
  | .str _ => optionsArg.getD {}

/-- The mutation `if (!options.content) options.content = content as string;`
(context.ts line 105): a falsy `content` field is overwritten with the first
argument - the string, or the options object itself. -/
def withContent (content : ContentArg) (options : MessageOptions) : MessageOptions :=
  if contentTruthy options.content then options
  else
    { options with
        content := some (match content with
          | .str s => SendContent.str s
          | .opts _ => SendContent.objRef) }

/-- The mutation `if (options.ephemeral && !options.flags) options.flags =
EPHEMERAL` (context.ts line 109). -/
def withEphemeralFlags (options : MessageOptions) : MessageOptions :=
  if boolTruthy options.ephemeral ∧ ¬ flagsTruthy options.flags then
    { options with flags := some InteractionResponseFlags.EPHEMERAL }
  else options

/-- The fully normalized options of `send`, after all three mutations. -/
def sendOptions (content : ContentArg) (optionsArg : Option MessageOptions) :
    MessageOptions :=
  withEphemeralFlags (withContent content (sendArgOptions content optionsArg))

/-- `CommandContext.send` (context.ts lines 97-147).  A thrown error becomes
`Except.error` paired with an empty effect list; the success value carries the
returned result, the updated context and the issued effects.  `apiResult`
stands for the data the follow-up request resolves with. -/
def CommandContext.send (ctx : CommandContext) (now : Nat) (content : ContentArg)
    (optionsArg : Option MessageOptions) (apiResult : ApiData) :
    Except String (SendResult × CommandContext) × List Effect :=
  if ctx.expired now then (.error "This interaction has expired", [])
  else if ¬ contentTruthy (withContent content (sendArgOptions content optionsArg)).content ∧
      (withContent content (sendArgOptions content optionsArg)).embeds = none then
    (.error "Message content and embeds are both not given.", [])
  else if ctx.initiallyResponded = false then
    (.ok (.initial true, { ctx with initiallyResponded := true }),
     [.respond
        { status := 200,
          type :=
            if boolTruthy (sendOptions content optionsArg).includeSource then
              .CHANNEL_MESSAGE_WITH_SOURCE
            else .CHANNEL_MESSAGE,
          data := some
            { tts := (sendOptions content optionsArg).tts,
              content := (sendOptions content optionsArg).content,
              embeds := (sendOptions content optionsArg).embeds,
              flags := (sendOptions content optionsArg).flags,
              allowed_mentions :=
                resolveAllowedMentions ctx
                  (sendOptions content optionsArg).allowedMentions } }])
  else
    (.ok (.followUp ⟨apiResult⟩, ctx),
     [.request "POST"
        (Endpoints.FOLLOWUP_MESSAGE ctx.applicationID ctx.interactionToken)
        (some true)
        (some
          { tts := (sendOptions content optionsArg).tts,
            content := (sendOptions content optionsArg).content,
            embeds := (sendOptions content optionsArg).embeds,
            allowed_mentions :=
              some (resolveAllowedMentions ctx
                (sendOptions content optionsArg).allowedMentions) })])

/-- The normalized options of `edit`: the same argument juggling and content
mutation as `send` (context.ts lines 158-163). -/
def editOptions (content : EditContentArg) (optionsArg : Option EditMessageOptions) :
    EditMessageOptions :=
  let options : EditMessageOptions :=
    match content with
    | .opts o => o
    | .str _ => optionsArg.getD {}
  if contentTruthy options.content then options
  else
    { options with
        content := some (match content with
          | .str s => SendContent.str s
          | .opts _ => SendContent.objRef) }

/-- `CommandContext.edit` (context.ts lines 155-183). -/
def CommandContext.edit (ctx : CommandContext) (now : Nat) (messageID : String)
    (content : EditContentArg) (optionsArg : Option EditMessageOptions)
    (apiResult : ApiData) : Except String Message × List Effect :=
  if ctx.expired now then (.error "This interaction has expired", [])
  else if ¬ contentTruthy (editOptions content optionsArg).content ∧
      (editOptions content optionsArg).embeds = none ∧
      (editOptions content optionsArg).allowedMentions = none then
    (.error "No valid options were given.", [])
  else
    (.ok ⟨apiResult⟩,
     [.request "PUT"
        (Endpoints.MESSAGE ctx.applicationID ctx.interactionToken (some messageID))
        (some true)
        (some
          { content := (editOptions content optionsArg).content,
            embeds := (editOptions content optionsArg).embeds,
            allowed_mentions :=
              some (resolveAllowedMentions ctx
                (editOptions content optionsArg).allowedMentions) })])

/-- `CommandContext.editOriginal` (context.ts lines 190-192). -/
def CommandContext.editOriginal (ctx : CommandContext) (now : Nat)
    (content : EditContentArg) (optionsArg : Option EditMessageOptions)
    (apiResult : ApiData) : Except String Message × List Effect :=
  ctx.edit now "@original" content optionsArg apiResult

/-- `CommandContext.delete` (context.ts lines 198-205). -/
def CommandContext.delete (ctx : CommandContext) (now : Nat)
    (messageID : Option String) : Except String Unit × List Effect :=
  if ctx.expired now then (.error "This interaction has expired", [])
  else
    (.ok (),
     [.request "DELETE"
        (Endpoints.MESSAGE ctx.applicationID ctx.interactionToken messageID)
        none none])

/-- `CommandContext.acknowledge` (context.ts lines 212-225). -/
def CommandContext.acknowledge (ctx : CommandContext) (includeSource : Bool) :
    Bool × CommandContext × List Effect :=
  if ctx.initiallyResponded = false then
    (true, { ctx with initiallyResponded := true },
     [.respond
        { status := 200,
          type :=
            if includeSource then .ACKNOWLEDGE_WITH_SOURCE else .ACKNOWLEDGE,
          data := none }])
  else (false, ctx, [])

/-- One public call on a `CommandContext`, for reasoning about whole call
sequences. -/
inductive CtxCall where
  | send (now : Nat) (content : ContentArg) (optionsArg : Option MessageOptions)
      (apiResult : ApiData)
  | acknowledge (includeSource : Bool)
  | edit (now : Nat) (messageID : String) (content : EditContentArg)
      (optionsArg : Option EditMessageOptions) (apiResult : ApiData)
  | editOriginal (now : Nat) (content : EditContentArg)
      (optionsArg : Option EditMessageOptions) (apiResult : ApiData)
  | delete (now : Nat) (messageID : Option String)
deriving DecidableEq

/-- Effect of one call on the context state, together with the effects it
issued (a thrown call leaves the context unchanged and issues nothing). -/
def ctxStep (ctx : CommandContext) : CtxCall → CommandContext × List Effect
  | .send now c o d =>
    match ctx.send now c o d with
    | (.ok (_, ctx'), effs) => (ctx', effs)
    | (.error _, effs) => (ctx, effs)
  | .acknowledge inc =>
    let r := ctx.acknowledge inc
    (r.2.1, r.2.2)
  | .edit now m c o d => (ctx, (ctx.edit now m c o d).2)
  | .editOriginal now c o d => (ctx, (ctx.editOriginal now c o d).2)
  | .delete now m => (ctx, (ctx.delete now m).2)

/-- Running a sequence of calls on a context, collecting all issued effects. -/
def ctxRun (ctx : CommandContext) : List CtxCall → CommandContext × List Effect
  | [] => (ctx, [])
  | c :: cs =>
    let r := ctxStep ctx c
    let r' := ctxRun r.1 cs
    (r'.1, r.2 ++ r'.2)

/-- Number of `_respond` invocations in an effect list. -/
def respondCount (effs : List Effect) : Nat :=
  (effs.filter fun e => match e with | .respond _ => true | _ => false).length

/-! ## Part 2: the rate-limit dispatcher core

The implementation (`util/requestHandler.ts`, `util/sequentialBucket.ts`) is
not among the sources at hand, so the whole component is modelled from the
specification (sections 3-5 and 7 of the spec).  Time is a logical
millisecond clock; the interleaving of callers, the transport and the clock
is captured by a list of `Event`s driving a deterministic step function, so
"for every execution" becomes "for every event list". -/

namespace RateLimit

/-- Modelled from the spec: the dispatcher configuration constants
`{maxAttempts, baseBackoffMs, maxBackoffMs}` (spec section 4.3). -/
structure Config where
  maxAttempts : Nat
  baseBackoffMs : Nat
  maxBackoffMs : Nat
deriving DecidableEq

/-- Modelled from the spec: a Request (spec section 3) - the unit of caller
work: a unique sequence number for FIFO tie-breaking, an attempt counter
(starting at 1 for the first attempt), an optional deadline, and the earliest
time it may be dispatched again after a backoff. -/
structure Req where
  seq : Nat
  attempts : Nat
  deadline : Option Nat
  notBefore : Nat
deriving DecidableEq

/-- Modelled from the spec: a Bucket (spec sections 3 and 4.1) - per-route
FIFO queue plus quota state.  `remaining` is an integer so that the clamping
to zero is a real property rather than a typing accident; `inflight` holds the
single in-flight request (the `processing` flag is its presence);
`pausedUntil` is the per-bucket pause set by a non-global 429. -/
structure Bucket where
  limit : Nat
  remaining : Int
  resetAt : Nat
  windowMs : Nat
  queue : List Req
  inflight : Option Req
  pausedUntil : Nat
deriving DecidableEq

/-- The `processing` flag of a bucket: at most one in-flight request. -/
def Bucket.processing (b : Bucket) : Bool :=
  b.inflight.isSome

/-- Modelled from the spec: a bucket created lazily on first request to a new
route, treated as one unconstrained in-flight slot until the server reports a
limit (spec section 3: "unknown until first response, treated as
unconstrained=1 in-flight until known"). -/
def newBucket : Bucket :=
  { limit := 1, remaining := 1, resetAt := 0, windowMs := 0, queue := [],
    inflight := none, pausedUntil := 0 }

/-- Modelled from the spec: the GlobalLimiter (spec sections 3 and 4.2) - a
shared counter with a rolling window. -/
structure GlobalLimiter where
  limit : Nat
  remaining : Int
  resetAt : Nat
  windowMs : Nat
deriving DecidableEq

/-- Modelled from the spec: the rate-limit response headers consumed on a
success (bucket limit, remaining and reset time; spec section 6). -/
structure Headers where
  limit : Nat
  remaining : Nat
  resetAt : Nat
deriving DecidableEq

/-- Modelled from the spec: the classified outcome of one transport call
(spec section 4.3 step 4). -/
inductive Outcome where
  | success (status : Nat) (hdrs : Option Headers)
  | rateLimited (retryAfter : Nat) (globalLimit : Bool)
  | transientFailure (status : Nat)
  | clientError (status : Nat)
deriving DecidableEq

/-- Modelled from the spec: the terminal value a Request's completion handle
is resolved with (spec section 7 taxonomy). -/
inductive Resolution where
  | success (status : Nat)
  | clientError (status : Nat)
  | transientExhausted (status : Nat)
  | timeout
deriving DecidableEq

/-- Modelled from the spec: the dispatcher state - the bucket table, the
global limiter, the global 429 pause, the logical clock, the next fresh
sequence number, the ordered log of requests issued to the transport, and the
resolution log of completion handles. -/
structure DState where
  cfg : Config
  now : Nat
  nextSeq : Nat
  buckets : List (String × Bucket)
  glob : GlobalLimiter
  globalPausedUntil : Nat
  dispatchLog : List (String × Nat)
  resolved : List (Nat × Resolution)
deriving DecidableEq

/-- Modelled from the spec: one atomic scheduling event - a caller enqueue,
a clock advance, a scheduling-loop visit to a bucket, a transport response
for a bucket's in-flight request, or a deadline sweep (spec sections 4.3
and 5). -/
inductive Event where
  | enqueue (key : String) (deadline : Option Nat)
  | tick (dt : Nat)
  | dispatch (key : String)
  | response (key : String) (o : Outcome)
  | sweep
deriving DecidableEq

/-- Bucket-table lookup by key. -/
def lookupBucket (key : String) : List (String × Bucket) → Option Bucket
  | [] => none
  | kb :: rest => if kb.1 = key then some kb.2 else lookupBucket key rest

/-- Bucket-table update: replace the entry in place, or append a new one. -/
def setBucket (key : String) (b : Bucket) : List (String × Bucket) → List (String × Bucket)
  | [] => [(key, b)]
  | kb :: rest => if kb.1 = key then (key, b) :: rest else kb :: setBucket key b rest

/-- Modelled from the spec: the single-resolution invariant "an already
resolved handle cannot be resolved again" (spec section 9), enforced by
construction - resolving is a no-op when the handle already has a value. -/
def resolveOnce (res : List (Nat × Resolution)) (seq : Nat) (r : Resolution) :
    List (Nat × Resolution) :=
  if (res.map Prod.fst).contains seq then res else res ++ [(seq, r)]

/-- Resolving a list of sequence numbers in order, each through
`resolveOnce`. -/
def resolveSeqs (res : List (Nat × Resolution)) (seqs : List Nat)
    (r : Resolution) : List (Nat × Resolution) :=
  seqs.foldl (fun acc n => resolveOnce acc n r) res

/-- Modelled from the spec: window refresh of a bucket - "if the window has
elapsed, resets `remaining = limit` and advances `resetAt` before
evaluating" (spec section 4.1). -/
def Bucket.refresh (now : Nat) (b : Bucket) : Bucket :=
  if b.resetAt ≤ now then
    { b with remaining := Int.ofNat b.limit, resetAt := now + b.windowMs }
  else b

/-- Modelled from the spec: `refreshIfElapsed` of the GlobalLimiter (spec
section 4.2). -/
def GlobalLimiter.refresh (now : Nat) (g : GlobalLimiter) : GlobalLimiter :=
  if g.resetAt ≤ now then
    { g with remaining := Int.ofNat g.limit, resetAt := now + g.windowMs }
  else g

/-- Modelled from the spec: `tryDequeue` (spec section 4.1) - returns the
head request only if `processing == false`, the bucket is not paused, the
head's backoff delay has elapsed and (after a window refresh) `remaining > 0`;
marks the bucket processing and conservatively decrements `remaining`,
clamped to zero. -/
def Bucket.tryDequeue (now : Nat) (b : Bucket) : Option (Req × Bucket) :=
  if b.processing then none
  else if now < b.pausedUntil then none
  else
    match b.queue with
    | [] => none
    | r :: rest =>
      if 0 < (b.refresh now).remaining ∧ r.notBefore ≤ now then
        some (r, { (b.refresh now) with
                   queue := rest
                   inflight := some r
                   remaining := max ((b.refresh now).remaining - 1) 0 })
      else none

/-- Modelled from the spec: the scheduling loop's attempt to drive one bucket
(spec section 4.3 step 3) - blocked while a global 429 pause is active; for a
schedulable bucket it also checks the GlobalLimiter, and if both allow it
dequeues and consumes global capacity.  Returns the dispatched request, the
updated bucket and the updated (refreshed and consumed) global limiter. -/
def dispatchTry (s : DState) (key : String) : Option (Req × Bucket × GlobalLimiter) :=
  if s.now < s.globalPausedUntil then none
  else
    match lookupBucket key s.buckets with
    | none => none
    | some b =>
      let g := s.glob.refresh s.now
      if 0 < g.remaining then
        match b.tryDequeue s.now with
        | none => none
        | some (r, b') => some (r, b', { g with remaining := max (g.remaining - 1) 0 })
      else none

/-- Modelled from the spec: the state change of one scheduling-loop visit -
on success the request is issued to the transport (appended to the dispatch
log). -/
def dispatchStep (s : DState) (key : String) : DState :=
  match dispatchTry s key with
  | none => s
  | some (r, b', g') =>
    { s with buckets := setBucket key b' s.buckets, glob := g',
             dispatchLog := s.dispatchLog ++ [(key, r.seq)] }

/-- Modelled from the spec: `applyResponseHeaders` (spec section 4.1) - the
server-reported values are authoritative; the window length is re-estimated
from the reported reset time. -/
def Bucket.applyHeaders (h : Headers) (now : Nat) (b : Bucket) : Bucket :=
  { b with limit := h.limit, remaining := Int.ofNat h.remaining,
           resetAt := h.resetAt, windowMs := h.resetAt - now }

/-- Modelled from the spec: the exponential backoff delay before retrying
after the given attempt - base delay doubling per attempt, capped at
`maxBackoffMs` (spec section 4.3 step 4). -/
def backoffDelay (cfg : Config) (attempt : Nat) : Nat :=
  min (cfg.baseBackoffMs * 2 ^ (attempt - 1)) cfg.maxBackoffMs

/-- Modelled from the spec: response handling (spec section 4.3 step 4).
Success applies headers, resolves the handle and releases the bucket.
A 429 re-enqueues the request at the head with its attempt counter
incremented, pauses either all dispatch (global) or only the offending
bucket, and releases the bucket.  A transient failure re-enqueues at the head
with exponential backoff while attempts remain under `maxAttempts`, and
otherwise fails the request permanently with the last observed status.  A
non-retryable client error fails the request immediately.  Releasing the
bucket (`release()`, spec section 4.1) is clearing `inflight`. -/
def responseStep (s : DState) (key : String) (o : Outcome) : DState :=
  match lookupBucket key s.buckets with
  | none => s
  | some b =>
    match b.inflight with
    | none => s
    | some r =>
      match o with
      | .success st hdrs =>
        let b2 := match hdrs with
          | some h => b.applyHeaders h s.now
          | none => b
        { s with buckets := setBucket key { b2 with inflight := none } s.buckets,
                 resolved := resolveOnce s.resolved r.seq (.success st) }
      | .rateLimited retryAfter g =>
        let r' : Req := { r with attempts := r.attempts + 1 }
        let b' : Bucket :=
          { b with inflight := none, queue := r' :: b.queue,
                   pausedUntil := if g then b.pausedUntil else s.now + retryAfter }
        { s with buckets := setBucket key b' s.buckets,
                 globalPausedUntil :=
                   if g then s.now + retryAfter else s.globalPausedUntil }
      | .transientFailure st =>
        if r.attempts + 1 ≤ s.cfg.maxAttempts then
          let r' : Req := { r with attempts := r.attempts + 1,
                                   notBefore := s.now + backoffDelay s.cfg r.attempts }
          { s with buckets :=
              setBucket key { b with inflight := none, queue := r' :: b.queue } s.buckets }
        else
          { s with buckets := setBucket key { b with inflight := none } s.buckets,
                   resolved := resolveOnce s.resolved r.seq (.transientExhausted st) }
      | .clientError st =>
        { s with buckets := setBucket key { b with inflight := none } s.buckets,
                 resolved := resolveOnce s.resolved r.seq (.clientError st) }

/-- Whether a request's deadline has elapsed at the given time. -/
def Req.expiredAt (now : Nat) (r : Req) : Bool :=
  match r.deadline with
  | some d => d ≤ now
  | none => false

/-- Removing the deadline-elapsed requests from a bucket's queue. -/
def sweepBucket (now : Nat) (b : Bucket) : Bucket :=
  { b with queue := b.queue.filter fun r => ! Req.expiredAt now r }

/-- The sequence numbers of the deadline-elapsed queued requests of a bucket
table, in queue order. -/
def expiredOf (now : Nat) : List (String × Bucket) → List Nat
  | [] => []
  | kb :: rest =>
    ((kb.2.queue.filter (Req.expiredAt now)).map Req.seq) ++ expiredOf now rest

/-- Modelled from the spec: the deadline sweep (spec section 5) - every
request whose deadline elapsed while queued or awaiting retry is failed with
a timeout error and removed from its bucket's queue, without affecting other
queued requests. -/
def sweepStep (s : DState) : DState :=
  { s with
      buckets := s.buckets.map fun kb => (kb.1, sweepBucket s.now kb.2),
      resolved := resolveSeqs s.resolved (expiredOf s.now s.buckets) .timeout }

/-- Modelled from the spec: `enqueue` (spec sections 4.1 and 4.3 steps 1-2) -
look up or lazily create the bucket and append a fresh request (attempt
number 1) to the tail of its queue. -/
def enqueueStep (s : DState) (key : String) (deadline : Option Nat) : DState :=
  let b := (lookupBucket key s.buckets).getD newBucket
  let r : Req := { seq := s.nextSeq, attempts := 1, deadline := deadline, notBefore := 0 }
  { s with nextSeq := s.nextSeq + 1,
           buckets := setBucket key { b with queue := b.queue ++ [r] } s.buckets }

/-- One step of the dispatcher state machine. -/
def step (s : DState) : Event → DState
  | .enqueue k d => enqueueStep s k d
  | .tick dt => { s with now := s.now + dt }
  | .dispatch k => dispatchStep s k
  | .response k o => responseStep s k o
  | .sweep => sweepStep s

/-- Running the dispatcher from an arbitrary state. -/
def runFrom (s : DState) (evs : List Event) : DState :=
  evs.foldl step s

/-- The initial dispatcher state: empty bucket table, full global window. -/
def initState (cfg : Config) (globalLimit globalWindowMs : Nat) : DState :=
  { cfg := cfg, now := 0, nextSeq := 0, buckets := [],
    glob := { limit := globalLimit, remaining := Int.ofNat globalLimit,
              resetAt := 0, windowMs := globalWindowMs },
    globalPausedUntil := 0, dispatchLog := [], resolved := [] }

/-- A complete execution: the initial state driven by an event list. -/
def run (cfg : Config) (globalLimit globalWindowMs : Nat) (evs : List Event) : DState :=
  runFrom (initState cfg globalLimit globalWindowMs) evs

/-- The sequence numbers currently alive in a bucket: the in-flight request
followed by the queue. -/
def bucketLiveSeqs (b : Bucket) : List Nat :=
  (match b.inflight with | some r => [r.seq] | none => []) ++ b.queue.map Req.seq

/-- The sequence numbers currently alive in a bucket table. -/
def liveOf : List (String × Bucket) → List Nat
  | [] => []
  | kb :: rest => bucketLiveSeqs kb.2 ++ liveOf rest

/-- The sequence numbers of all unresolved (queued or in-flight) requests. -/
def liveSeqs (s : DState) : List Nat :=
  liveOf s.buckets

/-- The sequence numbers whose completion handles have been resolved. -/
def resolvedSeqs (s : DState) : List Nat :=
  s.resolved.map Prod.fst

/-- The sequence numbers of the entries of a dispatch log that belong to one
bucket key, in dispatch order. -/
def logOf (key : String) (log : List (String × Nat)) : List Nat :=
  (log.filter fun e => e.1 == key).map Prod.snd

/-- The per-bucket dispatch log: the sequence numbers issued to the transport
for one bucket key, in dispatch order. -/
def logSeqs (key : String) (s : DState) : List Nat :=
  logOf key s.dispatchLog

/-- Ordering and bookkeeping invariant tying one bucket to its dispatch log:
the queue is strictly sorted by submission number, the log is monotone, every
logged number is no greater than anything still alive in the bucket, the
in-flight request precedes everything queued, all numbers are below the next
fresh one, and `remaining` is never negative. -/
structure BucketInv (log : List Nat) (nextSeq : Nat) (b : Bucket) : Prop where
  queueSorted : (b.queue.map Req.seq).Pairwise (· < ·)
  queueLt : ∀ r ∈ b.queue, r.seq < nextSeq
  inflightLt : ∀ r, b.inflight = some r → r.seq < nextSeq
  inflightBefore : ∀ r, b.inflight = some r → ∀ q ∈ b.queue, r.seq < q.seq
  logMono : log.Pairwise (· ≤ ·)
  logLeQueue : ∀ l ∈ log, ∀ q ∈ b.queue, l ≤ q.seq
  logLeInflight : ∀ l ∈ log, ∀ r, b.inflight = some r → l ≤ r.seq
  logLt : ∀ l ∈ log, l < nextSeq
  remNonneg : 0 ≤ b.remaining

/-- Global invariant of reachable dispatcher states: well-formed bucket
table, every bucket satisfies its ordering invariant, the global limiter is
never negative, every request is alive in exactly one place or resolved
exactly once, and never both. -/
structure Inv (s : DState) : Prop where
  keysNodup : (s.buckets.map Prod.fst).Nodup
  bucketsInv : ∀ k b, lookupBucket k s.buckets = some b →
    BucketInv (logSeqs k s) s.nextSeq b
  logKeys : ∀ e ∈ s.dispatchLog, ∃ b, lookupBucket e.1 s.buckets = some b
  globNonneg : 0 ≤ s.glob.remaining
  liveNodup : (liveSeqs s).Nodup
  liveLt : ∀ i ∈ liveSeqs s, i < s.nextSeq
  resolvedNodup : (resolvedSeqs s).Nodup
  resolvedLt : ∀ i ∈ resolvedSeqs s, i < s.nextSeq
  liveResolvedDisjoint : ∀ i ∈ liveSeqs s, i ∉ resolvedSeqs s
  covered : ∀ i, i < s.nextSeq → i ∈ liveSeqs s ∨ i ∈ resolvedSeqs s

/-! ### Basic lemmas about the dispatcher model -/

@[simp]
theorem Bucket.refresh_queue (now : Nat) (b : Bucket) : (b.refresh now).queue = b.queue := by
  unfold Bucket.refresh; split <;> rfl

@[simp]
theorem Bucket.refresh_inflight (now : Nat) (b : Bucket) :
    (b.refresh now).inflight = b.inflight := by
  unfold Bucket.refresh; split <;> rfl

@[simp]
theorem Bucket.refresh_pausedUntil (now : Nat) (b : Bucket) :
    (b.refresh now).pausedUntil = b.pausedUntil := by
  unfold Bucket.refresh; split <;> rfl

theorem lookupBucket_split {k : String} {b : Bucket} {bs : List (String × Bucket)}
    (h : lookupBucket k bs = some b) :
    ∃ pre post, bs = pre ++ (k, b) :: post ∧ (∀ p ∈ pre, p.1 ≠ k) ∧
      ∀ b', setBucket k b' bs = pre ++ (k, b') :: post := by
  induction bs with
  | nil => simp [lookupBucket] at h
  | cons kb rest ih =>
    by_cases hk : kb.1 = k
    · have hb : kb.2 = b := by simpa [lookupBucket, hk] using h
      refine ⟨[], rest, ?_, by simp, fun b' => by simp [setBucket, hk]⟩
      cases kb with
      | mk k1 b1 =>
        simp only [Prod.fst] at hk
        simp only [Prod.snd] at hb
        simp [hk, hb]
    · obtain ⟨pre, post, hbs, hpre, hset⟩ := ih (by simpa [lookupBucket, hk] using h)
      refine ⟨kb :: pre, post, by simp [hbs], ?_, fun b' => by simp [setBucket, hk, hset b']⟩
      intro p hp
      rcases List.mem_cons.1 hp with hp | hp
      · subst hp; exact hk
      · exact hpre p hp

theorem lookupBucket_eq_none {k : String} {bs : List (String × Bucket)} :
    lookupBucket k bs = none ↔ ∀ p ∈ bs, p.1 ≠ k := by
  induction bs with
  | nil => simp [lookupBucket]
  | cons kb rest ih =>
    by_cases hk : kb.1 = k
    · simp [lookupBucket, hk]
    · simp [lookupBucket, hk, ih]

theorem setBucket_of_none {k : String} {b' : Bucket} {bs : List (String × Bucket)}
    (h : lookupBucket k bs = none) : setBucket k b' bs = bs ++ [(k, b')] := by
  induction bs with
  | nil => rfl
  | cons kb rest ih =>
    have hk : kb.1 ≠ k := (lookupBucket_eq_none.1 h) kb (List.mem_cons_self kb rest)
    have hrest : lookupBucket k rest = none := by
      simpa [lookupBucket, hk] using h
    simp [setBucket, hk, ih hrest]

theorem lookup_set_self (k : String) (b : Bucket) (bs : List (String × Bucket)) :
    lookupBucket k (setBucket k b bs) = some b := by
  induction bs with
  | nil => simp [setBucket, lookupBucket]
  | cons kb rest ih =>
    by_cases hk : kb.1 = k
    · simp [setBucket, hk, lookupBucket]
    · simp [setBucket, hk, lookupBucket, ih]

theorem lookup_set_ne {k k' : String} (h : k' ≠ k) (b : Bucket)
    (bs : List (String × Bucket)) :
    lookupBucket k' (setBucket k b bs) = lookupBucket k' bs := by
  induction bs with
  | nil => simp [setBucket, lookupBucket, Ne.symm h]
  | cons kb rest ih =>
    by_cases hk : kb.1 = k
    · simp [setBucket, hk, lookupBucket, Ne.symm h, hk.symm ▸ hk]
    · simp [setBucket, hk, lookupBucket, ih]

theorem lookupBucket_map {k : String} (f : Bucket → Bucket) (bs : List (String × Bucket)) :
    lookupBucket k (bs.map fun kb => (kb.1, f kb.2)) = (lookupBucket k bs).map f := by
  induction bs with
  | nil => simp [lookupBucket]
  | cons kb rest ih =>
    by_cases hk : kb.1 = k
    · simp [lookupBucket, hk]
    · simp [lookupBucket, hk, ih]

@[simp]
theorem logOf_nil (k : String) : logOf k [] = [] := rfl

theorem logOf_append (k : String) (l m : List (String × Nat)) :
    logOf k (l ++ m) = logOf k l ++ logOf k m := by
  simp [logOf, List.filter_append]

@[simp]
theorem logOf_singleton_self (k : String) (n : Nat) : logOf k [(k, n)] = [n] := by
  simp [logOf]

theorem logOf_singleton_ne {k k1 : String} (h : k1 ≠ k) (n : Nat) :
    logOf k [(k1, n)] = [] := by
  simp [logOf, h]

@[simp]
theorem liveOf_nil : liveOf [] = [] := rfl

@[simp]
theorem liveOf_cons (kb : String × Bucket) (rest : List (String × Bucket)) :
    liveOf (kb :: rest) = bucketLiveSeqs kb.2 ++ liveOf rest := rfl

theorem liveOf_append (l m : List (String × Bucket)) :
    liveOf (l ++ m) = liveOf l ++ liveOf m := by
  induction l with
  | nil => simp
  | cons kb rest ih => simp [ih]

theorem resolveOnce_eq_of_mem {res : List (Nat × Resolution)} {n : Nat} {r : Resolution}
    (h : n ∈ res.map Prod.fst) : resolveOnce res n r = res := by
  unfold resolveOnce
  rw [if_pos]
  exact List.elem_iff.2 h

theorem resolveOnce_eq_of_not_mem {res : List (Nat × Resolution)} {n : Nat} {r : Resolution}
    (h : n ∉ res.map Prod.fst) : resolveOnce res n r = res ++ [(n, r)] := by
  unfold resolveOnce
  rw [if_neg]
  intro hc
  exact h (List.elem_iff.1 hc)

theorem resolveOnce_map_fst_mem {res : List (Nat × Resolution)} {n i : Nat} {r : Resolution} :
    i ∈ (resolveOnce res n r).map Prod.fst ↔ i ∈ res.map Prod.fst ∨ i = n := by
  by_cases h : n ∈ res.map Prod.fst
  · rw [resolveOnce_eq_of_mem h]
    constructor
    · exact Or.inl
    · rintro (hi | rfl)
      · exact hi
      · exact h
  · rw [resolveOnce_eq_of_not_mem h]
    simp

theorem resolveOnce_nodup {res : List (Nat × Resolution)} {n : Nat} {r : Resolution}
    (h : (res.map Prod.fst).Nodup) : ((resolveOnce res n r).map Prod.fst).Nodup := by
  by_cases hm : n ∈ res.map Prod.fst
  · rw [resolveOnce_eq_of_mem hm]; exact h
  · rw [resolveOnce_eq_of_not_mem hm]
    simp [List.nodup_append, h, hm]

theorem resolveOnce_mem_of_mem {res : List (Nat × Resolution)} {n : Nat} {r : Resolution}
    {p : Nat × Resolution} (h : p ∈ res) : p ∈ resolveOnce res n r := by
  by_cases hm : n ∈ res.map Prod.fst
  · rw [resolveOnce_eq_of_mem hm]; exact h
  · rw [resolveOnce_eq_of_not_mem hm]; exact List.mem_append_left _ h

theorem resolveOnce_self_mem {res : List (Nat × Resolution)} {n : Nat} {r : Resolution}
    (h : n ∉ res.map Prod.fst) : (n, r) ∈ resolveOnce res n r := by
  rw [resolveOnce_eq_of_not_mem h]
  simp

theorem resolveSeqs_map_fst_mem {seqs : List Nat} :
    ∀ {res : List (Nat × Resolution)} {i : Nat} {r : Resolution},
    (i ∈ (resolveSeqs res seqs r).map Prod.fst ↔ i ∈ res.map Prod.fst ∨ i ∈ seqs) := by
  induction seqs with
  | nil => simp [resolveSeqs]
  | cons n rest ih =>
    intro res i r
    show i ∈ (resolveSeqs (resolveOnce res n r) rest r).map Prod.fst ↔ _
    rw [ih, resolveOnce_map_fst_mem]
    simp only [List.mem_cons]
    tauto

theorem resolveSeqs_nodup {seqs : List Nat} :
    ∀ {res : List (Nat × Resolution)} {r : Resolution},
    (res.map Prod.fst).Nodup → ((resolveSeqs res seqs r).map Prod.fst).Nodup := by
  induction seqs with
  | nil => intro res r h; exact h
  | cons n rest ih =>
    intro res r h
    exact ih (resolveOnce_nodup h)

theorem resolveSeqs_mem_of_mem {seqs : List Nat} :
    ∀ {res : List (Nat × Resolution)} {r : Resolution} {p : Nat × Resolution},
    p ∈ res → p ∈ resolveSeqs res seqs r := by
  induction seqs with
  | nil => intro res r p h; exact h
  | cons n rest ih =>
    intro res r p h
    exact ih (resolveOnce_mem_of_mem h)

theorem resolveSeqs_pair_mem {seqs : List Nat} :
    ∀ {res : List (Nat × Resolution)} {r : Resolution} {n : Nat},
    n ∈ seqs → n ∉ res.map Prod.fst → (n, r) ∈ resolveSeqs res seqs r := by
  induction seqs with
  | nil => intro res r n h; simp at h
  | cons m rest ih =>
    intro res r n h hn
    show (n, r) ∈ resolveSeqs (resolveOnce res m r) rest r
    rcases List.mem_cons.1 h with rfl | h
    · exact resolveSeqs_mem_of_mem (resolveOnce_self_mem hn)
    · by_cases hm : n = m
      · subst hm
        exact resolveSeqs_mem_of_mem (resolveOnce_self_mem hn)
      · refine ih h ?_
        rw [resolveOnce_map_fst_mem]
        rintro (hc | rfl)
        · exact hn hc
        · exact hm rfl

theorem tryDequeue_eq_some {now : Nat} {b : Bucket} {r : Req} {b' : Bucket}
    (h : b.tryDequeue now = some (r, b')) :
    b.inflight = none ∧ ∃ rest, b.queue = r :: rest ∧
      b' = { (b.refresh now) with
             queue := rest
             inflight := some r
             remaining := max ((b.refresh now).remaining - 1) 0 } ∧
      0 < (b.refresh now).remaining ∧ r.notBefore ≤ now ∧ ¬ now < b.pausedUntil := by
  unfold Bucket.tryDequeue at h
  split at h
  · exact absurd h (by simp)
  next hp =>
    have hi : b.inflight = none := by
      cases hig : b.inflight with
      | none => rfl
      | some r0 => simp [Bucket.processing, hig] at hp
    split at h
    · exact absurd h (by simp)
    next hpa =>
      split at h
      · exact absurd h (by simp)
      next r0 rest hq =>
        split at h
        next hc =>
          injection h with h'
          injection h' with h1 h2
          subst h1
          exact ⟨hi, rest, hq, h2.symm, hc.1, hc.2, hpa⟩
        · exact absurd h (by simp)

theorem dispatchTry_eq_some {s : DState} {k : String} {r : Req} {b' : Bucket}
    {g' : GlobalLimiter} (h : dispatchTry s k = some (r, b', g')) :
    ∃ b, lookupBucket k s.buckets = some b ∧ b.tryDequeue s.now = some (r, b') ∧
      g' = { (s.glob.refresh s.now) with
             remaining := max ((s.glob.refresh s.now).remaining - 1) 0 } ∧
      0 < (s.glob.refresh s.now).remaining ∧ ¬ s.now < s.globalPausedUntil := by
  unfold dispatchTry at h
  split at h
  · exact absurd h (by simp)
  next hgp =>
    cases hl : lookupBucket k s.buckets with
    | none => rw [hl] at h; simp at h
    | some b =>
      rw [hl] at h
      simp only at h
      split at h
      next hg =>
        cases htd : b.tryDequeue s.now with
        | none => rw [htd] at h; simp at h
        | some p =>
          obtain ⟨p1, p2⟩ := p
          rw [htd] at h
          simp only at h
          injection h with h'
          injection h' with h1 h2
          injection h2 with h2 h3
          subst h1
          subst h2
          refine ⟨b, hl ▸ rfl, ?_, ?_, hg, hgp⟩
          · exact htd
          · exact h3.symm
      · exact absurd h (by simp)

theorem dispatchStep_of_none {s : DState} {k : String} (h : dispatchTry s k = none) :
    dispatchStep s k = s := by
  unfold dispatchStep
  rw [h]

theorem dispatchStep_of_some {s : DState} {k : String} {r : Req} {b' : Bucket}
    {g' : GlobalLimiter} (h : dispatchTry s k = some (r, b', g')) :
    dispatchStep s k =
      { s with buckets := setBucket k b' s.buckets, glob := g',
               dispatchLog := s.dispatchLog ++ [(k, r.seq)] } := by
  unfold dispatchStep
  rw [h]

theorem responseStep_no_bucket {s : DState} {k : String} {o : Outcome}
    (h : lookupBucket k s.buckets = none) : responseStep s k o = s := by
  unfold responseStep
  rw [h]

theorem responseStep_no_inflight {s : DState} {k : String} {o : Outcome} {b : Bucket}
    (hl : lookupBucket k s.buckets = some b) (hi : b.inflight = none) :
    responseStep s k o = s := by
  unfold responseStep
  rw [hl]
  simp only [hi]

theorem responseStep_success {s : DState} {k : String} {b : Bucket} {r : Req}
    {st : Nat} {hdrs : Option Headers}
    (hl : lookupBucket k s.buckets = some b) (hi : b.inflight = some r) :
    responseStep s k (.success st hdrs) =
      { s with
          buckets := setBucket k
            { (match hdrs with | some h => b.applyHeaders h s.now | none => b) with
              inflight := none } s.buckets,
          resolved := resolveOnce s.resolved r.seq (.success st) } := by
  unfold responseStep
  rw [hl]
  simp only [hi]

theorem responseStep_rateLimited {s : DState} {k : String} {b : Bucket} {r : Req}
    {retryAfter : Nat} {g : Bool}
    (hl : lookupBucket k s.buckets = some b) (hi : b.inflight = some r) :
    responseStep s k (.rateLimited retryAfter g) =
      { s with
          buckets := setBucket k
            { b with
              inflight := none
              queue := { r with attempts := r.attempts + 1 } :: b.queue
              pausedUntil := if g then b.pausedUntil else s.now + retryAfter }
            s.buckets,
          globalPausedUntil :=
            if g then s.now + retryAfter else s.globalPausedUntil } := by
  unfold responseStep
  rw [hl]
  simp only [hi]

theorem responseStep_transient_retry {s : DState} {k : String} {b : Bucket} {r : Req}
    {st : Nat} (hl : lookupBucket k s.buckets = some b) (hi : b.inflight = some r)
    (ha : r.attempts + 1 ≤ s.cfg.maxAttempts) :
    responseStep s k (.transientFailure st) =
      { s with
          buckets := setBucket k
            { b with
              inflight := none
              queue := { r with
                         attempts := r.attempts + 1
                         notBefore := s.now + backoffDelay s.cfg r.attempts } :: b.queue }
            s.buckets } := by
  unfold responseStep
  rw [hl]
  simp only [hi, ha, if_pos]

theorem responseStep_transient_fail {s : DState} {k : String} {b : Bucket} {r : Req}
    {st : Nat} (hl : lookupBucket k s.buckets = some b) (hi : b.inflight = some r)
    (ha : ¬ r.attempts + 1 ≤ s.cfg.maxAttempts) :
    responseStep s k (.transientFailure st) =
      { s with
          buckets := setBucket k { b with inflight := none } s.buckets,
          resolved := resolveOnce s.resolved r.seq (.transientExhausted st) } := by
  unfold responseStep
  rw [hl]
  simp only [hi, ha, if_neg, if_false]

theorem responseStep_clientError {s : DState} {k : String} {b : Bucket} {r : Req}
    {st : Nat} (hl : lookupBucket k s.buckets = some b) (hi : b.inflight = some r) :
    responseStep s k (.clientError st) =
      { s with
          buckets := setBucket k { b with inflight := none } s.buckets,
          resolved := resolveOnce s.resolved r.seq (.clientError st) } := by
  unfold responseStep
  rw [hl]
  simp only [hi]

theorem enqueueStep_dispatchLog (s : DState) (k : String) (d : Option Nat) :
    (enqueueStep s k d).dispatchLog = s.dispatchLog := rfl

theorem sweepStep_dispatchLog (s : DState) : (sweepStep s).dispatchLog = s.dispatchLog := rfl

theorem responseStep_dispatchLog (s : DState) (k : String) (o : Outcome) :
    (responseStep s k o).dispatchLog = s.dispatchLog := by
  cases hl : lookupBucket k s.buckets with
  | none => rw [responseStep_no_bucket hl]
  | some b =>
    cases hi : b.inflight with
    | none => rw [responseStep_no_inflight hl hi]
    | some r =>
      cases o with
      | success st hdrs => rw [responseStep_success hl hi]
      | rateLimited ra g => rw [responseStep_rateLimited hl hi]
      | transientFailure st =>
        by_cases ha : r.attempts + 1 ≤ s.cfg.maxAttempts
        · rw [responseStep_transient_retry hl hi ha]
        · rw [responseStep_transient_fail hl hi ha]
      | clientError st => rw [responseStep_clientError hl hi]

theorem mem_liveOf_of_lookup {k : String} {b : Bucket} {bs : List (String × Bucket)}
    (hl : lookupBucket k bs = some b) {i : Nat} (hi : i ∈ bucketLiveSeqs b) :
    i ∈ liveOf bs := by
  obtain ⟨pre, post, hbs, -, -⟩ := lookupBucket_split hl
  subst hbs
  rw [liveOf_append]
  exact List.mem_append_right _ (by simp [hi])

theorem step_dispatchLog (s : DState) (e : Event) :
    ∃ t, (step s e).dispatchLog = s.dispatchLog ++ t ∧ ∀ p ∈ t, p.2 ∈ liveSeqs s := by
  cases e with
  | enqueue k d => exact ⟨[], by simp [step, enqueueStep_dispatchLog], by simp⟩
  | tick dt => exact ⟨[], by simp [step], by simp⟩
  | sweep => exact ⟨[], by simp [step, sweepStep_dispatchLog], by simp⟩
  | response k o => exact ⟨[], by simp [step, responseStep_dispatchLog], by simp⟩
  | dispatch k =>
    cases hd : dispatchTry s k with
    | none =>
      refine ⟨[], ?_, by simp⟩
      show (dispatchStep s k).dispatchLog = _
      rw [dispatchStep_of_none hd]
      simp
    | some p =>
      obtain ⟨r, b', g'⟩ := p
      refine ⟨[(k, r.seq)], ?_, ?_⟩
      · show (dispatchStep s k).dispatchLog = _
        rw [dispatchStep_of_some hd]
      · intro p hp
        rcases List.mem_singleton.1 hp with rfl
        obtain ⟨b, hl, htd, -, -, -⟩ := dispatchTry_eq_some hd
        obtain ⟨-, rest, hq, -, -, -, -⟩ := tryDequeue_eq_some htd
        exact mem_liveOf_of_lookup hl
          (by simp [bucketLiveSeqs, hq])

theorem perm_pull_singleton (a m c : List Nat) (x : Nat) :
    List.Perm (a ++ (m ++ [x]) ++ c) ((a ++ m ++ c) ++ [x]) := by
  have h1 : a ++ (m ++ [x]) ++ c = a ++ m ++ ([x] ++ c) := by simp
  have h2 : List.Perm (a ++ m ++ ([x] ++ c)) (a ++ m ++ (c ++ [x])) :=
    List.Perm.append_left _ List.perm_append_comm
  have h3 : a ++ m ++ (c ++ [x]) = a ++ m ++ c ++ [x] := by simp
  rw [h1, ← h3]
  exact h2

theorem perm_pull_cons (a m c : List Nat) (x : Nat) :
    List.Perm (a ++ (x :: m) ++ c) (x :: (a ++ m ++ c)) := by
  have h1 : a ++ (x :: m) ++ c = a ++ x :: (m ++ c) := by simp
  have h3 : x :: (a ++ (m ++ c)) = x :: (a ++ m ++ c) := by simp
  rw [h1, ← h3]
  exact List.perm_middle

theorem perm_shuffle (a e c f : List Nat) :
    List.Perm ((a ++ e) ++ (c ++ f)) ((a ++ c) ++ (e ++ f)) := by
  have e1 : (a ++ e) ++ (c ++ f) = a ++ (e ++ (c ++ f)) := by simp
  have e2 : (a ++ c) ++ (e ++ f) = a ++ (c ++ (e ++ f)) := by simp
  rw [e1, e2]
  refine List.Perm.append_left _ ?_
  have e3 : e ++ (c ++ f) = (e ++ c) ++ f := by simp
  have e4 : c ++ (e ++ f) = (c ++ e) ++ f := by simp
  rw [e3, e4]
  exact List.Perm.append_right _ List.perm_append_comm

theorem BucketInv.mono {log : List Nat} {n n' : Nat} {b : Bucket}
    (h : BucketInv log n b) (hn : n ≤ n') : BucketInv log n' b := by
  constructor
  · exact h.queueSorted
  · exact fun r hr => lt_of_lt_of_le (h.queueLt r hr) hn
  · exact fun r hr => lt_of_lt_of_le (h.inflightLt r hr) hn
  · exact h.inflightBefore
  · exact h.logMono
  · exact h.logLeQueue
  · exact h.logLeInflight
  · exact fun l hl => lt_of_lt_of_le (h.logLt l hl) hn
  · exact h.remNonneg

theorem BucketInv.enqueue {log : List Nat} {n : Nat} {b : Bucket}
    (h : BucketInv log n b) (d : Option Nat) :
    BucketInv log (n + 1) { b with queue := b.queue ++ [⟨n, 1, d, 0⟩] } := by
  constructor
  · show ((b.queue ++ [(⟨n, 1, d, 0⟩ : Req)]).map Req.seq).Pairwise (· < ·)
    rw [List.map_append, List.pairwise_append]
    refine ⟨h.queueSorted, by simp, ?_⟩
    intro x hx y hy
    simp only [List.map_cons, List.map_nil, List.mem_singleton] at hy
    subst hy
    obtain ⟨r, hr, rfl⟩ := List.mem_map.1 hx
    exact h.queueLt r hr
  · intro r hr
    rcases List.mem_append.1 hr with hr | hr
    · exact lt_trans (h.queueLt r hr) (Nat.lt_succ_self n)
    · simp only [List.mem_singleton] at hr
      subst hr
      exact Nat.lt_succ_self n
  · exact fun r hr => lt_trans (h.inflightLt r hr) (Nat.lt_succ_self n)
  · intro r hr q hq
    rcases List.mem_append.1 hq with hq | hq
    · exact h.inflightBefore r hr q hq
    · simp only [List.mem_singleton] at hq
      subst hq
      exact h.inflightLt r hr
  · exact h.logMono
  · intro l hl q hq
    rcases List.mem_append.1 hq with hq | hq
    · exact h.logLeQueue l hl q hq
    · simp only [List.mem_singleton] at hq
      subst hq
      exact le_of_lt (h.logLt l hl)
  · exact h.logLeInflight
  · exact fun l hl => lt_trans (h.logLt l hl) (Nat.lt_succ_self n)
  · exact h.remNonneg

theorem BucketInv.fresh (n : Nat) (d : Option Nat) :
    BucketInv [] (n + 1) { newBucket with queue := [⟨n, 1, d, 0⟩] } := by
  constructor
  · simp
  · intro r hr
    simp only [List.mem_singleton] at hr
    subst hr
    exact Nat.lt_succ_self n
  · intro r hr
    simp [newBucket] at hr
  · intro r hr
    simp [newBucket] at hr
  · simp
  · simp
  · simp
  · simp
  · show (0 : Int) ≤ 1
    norm_num

theorem keys_set_of_lookup {k : String} {b b' : Bucket} {bs : List (String × Bucket)}
    (hl : lookupBucket k bs = some b) :
    (setBucket k b' bs).map Prod.fst = bs.map Prod.fst := by
  obtain ⟨pre, post, hbs, -, hset⟩ := lookupBucket_split hl
  rw [hset, hbs]
  simp

theorem not_mem_keys_of_none {k : String} {bs : List (String × Bucket)}
    (h : lookupBucket k bs = none) : k ∉ bs.map Prod.fst := by
  intro hk
  obtain ⟨p, hp, hpk⟩ := List.mem_map.1 hk
  exact (lookupBucket_eq_none.1 h) p hp hpk

theorem logOf_eq_nil {k : String} {log : List (String × Nat)}
    (h : ∀ e ∈ log, e.1 ≠ k) : logOf k log = [] := by
  unfold logOf
  rw [List.filter_eq_nil_iff.2, List.map_nil]
  intro e he
  simp only [beq_iff_eq]
  exact h e he

theorem inv_tick {s : DState} (h : Inv s) (dt : Nat) : Inv (step s (.tick dt)) :=
  ⟨h.keysNodup, h.bucketsInv, h.logKeys, h.globNonneg, h.liveNodup, h.liveLt,
   h.resolvedNodup, h.resolvedLt, h.liveResolvedDisjoint, h.covered⟩

theorem inv_enqueue {s : DState} (hInv : Inv s) (k : String) (d : Option Nat) :
    Inv (enqueueStep s k d) := by
  have key : ∃ bq,
      enqueueStep s k d =
        { s with nextSeq := s.nextSeq + 1, buckets := setBucket k bq s.buckets } ∧
      BucketInv (logSeqs k s) (s.nextSeq + 1) bq ∧
      List.Perm (liveOf (setBucket k bq s.buckets)) (liveSeqs s ++ [s.nextSeq]) ∧
      ((setBucket k bq s.buckets).map Prod.fst).Nodup := by
    cases hl : lookupBucket k s.buckets with
    | some b =>
      refine ⟨{ b with queue := b.queue ++ [⟨s.nextSeq, 1, d, 0⟩] }, ?_, ?_, ?_, ?_⟩
      · unfold enqueueStep
        rw [hl]
        rfl
      · exact (hInv.bucketsInv k b hl).enqueue d
      · obtain ⟨pre, post, hbs, -, hset⟩ := lookupBucket_split hl
        rw [hset]
        have hbl : bucketLiveSeqs { b with queue := b.queue ++ [⟨s.nextSeq, 1, d, 0⟩] } =
            bucketLiveSeqs b ++ [s.nextSeq] := by
          simp [bucketLiveSeqs]
        have hlive : liveSeqs s = liveOf pre ++ bucketLiveSeqs b ++ liveOf post := by
          show liveOf s.buckets = _
          rw [hbs, liveOf_append, liveOf_cons]
          simp
        rw [liveOf_append, liveOf_cons, hbl, hlive]
        have h0 : liveOf pre ++ (bucketLiveSeqs b ++ [s.nextSeq] ++ liveOf post) =
            liveOf pre ++ (bucketLiveSeqs b ++ [s.nextSeq]) ++ liveOf post := by simp
        rw [h0]
        exact perm_pull_singleton (liveOf pre) (bucketLiveSeqs b) (liveOf post) s.nextSeq
      · rw [keys_set_of_lookup hl]
        exact hInv.keysNodup
    | none =>
      refine ⟨{ newBucket with queue := [⟨s.nextSeq, 1, d, 0⟩] }, ?_, ?_, ?_, ?_⟩
      · unfold enqueueStep
        rw [hl]
        rfl
      · have hnil : logSeqs k s = [] := by
          refine logOf_eq_nil ?_
          intro e he hek
          obtain ⟨b, hb⟩ := hInv.logKeys e he
          rw [hek] at hb
          rw [hl] at hb
          exact absurd hb (by simp)
        rw [hnil]
        exact BucketInv.fresh s.nextSeq d
      · rw [setBucket_of_none hl, liveOf_append]
        simp [bucketLiveSeqs, newBucket, liveSeqs]
      · rw [setBucket_of_none hl, List.map_append]
        simp only [List.map_cons, List.map_nil]
        rw [List.nodup_append]
        exact ⟨hInv.keysNodup, List.nodup_singleton k,
          by simpa using fun hk => not_mem_keys_of_none hl hk⟩
  obtain ⟨bq, hstep, hbinv, hperm, hkeys⟩ := key
  rw [hstep]
  constructor
  · exact hkeys
  · intro k1 b1 hl1
    by_cases hk : k1 = k
    · subst hk
      rw [lookup_set_self] at hl1
      injection hl1 with hb1
      subst hb1
      exact hbinv
    · rw [lookup_set_ne hk] at hl1
      exact (hInv.bucketsInv k1 b1 hl1).mono (Nat.le_succ _)
  · intro e he
    by_cases hk : e.1 = k
    · rw [hk]
      exact ⟨bq, lookup_set_self k bq s.buckets⟩
    · obtain ⟨b1, hb1⟩ := hInv.logKeys e he
      exact ⟨b1, by rw [lookup_set_ne hk]; exact hb1⟩
  · exact hInv.globNonneg
  · refine hperm.symm.nodup ?_
    rw [List.nodup_append]
    refine ⟨hInv.liveNodup, List.nodup_singleton _, ?_⟩
    rw [List.disjoint_singleton]
    intro hc
    exact absurd (hInv.liveLt _ hc) (lt_irrefl _)
  · intro i hi
    have := hperm.mem_iff.1 hi
    rcases List.mem_append.1 this with hi' | hi'
    · exact lt_trans (hInv.liveLt i hi') (Nat.lt_succ_self _)
    · simp only [List.mem_singleton] at hi'
      subst hi'
      exact Nat.lt_succ_self _
  · exact hInv.resolvedNodup
  · exact fun i hi => lt_trans (hInv.resolvedLt i hi) (Nat.lt_succ_self _)
  · intro i hi
    have := hperm.mem_iff.1 hi
    rcases List.mem_append.1 this with hi' | hi'
    · exact hInv.liveResolvedDisjoint i hi'
    · simp only [List.mem_singleton] at hi'
      subst hi'
      intro hc
      exact absurd (hInv.resolvedLt _ hc) (lt_irrefl _)
  · intro i hi
    rcases Nat.lt_succ_iff_lt_or_eq.1 hi with hi' | hi'
    · rcases hInv.covered i hi' with hc | hc
      · exact Or.inl (hperm.mem_iff.2 (List.mem_append_left _ hc))
      · exact Or.inr hc
    · subst hi'
      exact Or.inl (hperm.mem_iff.2 (List.mem_append_right _ (List.mem_singleton_self _)))

theorem liveOf_set_congr {k : String} {b b' : Bucket} {bs : List (String × Bucket)}
    (hl : lookupBucket k bs = some b)
    (hb : bucketLiveSeqs b' = bucketLiveSeqs b) :
    liveOf (setBucket k b' bs) = liveOf bs := by
  obtain ⟨pre, post, hbs, -, hset⟩ := lookupBucket_split hl
  rw [hset, hbs, liveOf_append, liveOf_append, liveOf_cons, liveOf_cons]
  simp [hb]

theorem inv_dispatch {s : DState} (hInv : Inv s) (k : String) : Inv (dispatchStep s k) := by
  cases hd : dispatchTry s k with
  | none =>
    rw [dispatchStep_of_none hd]
    exact hInv
  | some p =>
    obtain ⟨r, b', g'⟩ := p
    obtain ⟨b, hl, htd, hg', hgpos, hgp⟩ := dispatchTry_eq_some hd
    obtain ⟨hinfl, rest, hq, hb', hbrem, hnb, hpa⟩ := tryDequeue_eq_some htd
    rw [dispatchStep_of_some hd]
    subst hb'
    subst hg'
    have hbinv := hInv.bucketsInv k b hl
    have hrmem : r ∈ b.queue := by rw [hq]; exact List.mem_cons_self r rest
    have hrlt : r.seq < s.nextSeq := hbinv.queueLt r hrmem
    have hqs := hbinv.queueSorted
    rw [hq, List.map_cons, List.pairwise_cons] at hqs
    have hblive : bucketLiveSeqs
        { (b.refresh s.now) with
          queue := rest
          inflight := some r
          remaining := max ((b.refresh s.now).remaining - 1) 0 } = bucketLiveSeqs b := by
      simp [bucketLiveSeqs, hq, hinfl]
    have hliveEq : liveOf (setBucket k
        { (b.refresh s.now) with
          queue := rest
          inflight := some r
          remaining := max ((b.refresh s.now).remaining - 1) 0 } s.buckets) =
        liveSeqs s :=
      liveOf_set_congr hl hblive
    constructor
    · show ((setBucket k _ s.buckets).map Prod.fst).Nodup
      rw [keys_set_of_lookup hl]
      exact hInv.keysNodup
    · intro k1 b1 hl1
      by_cases hk : k1 = k
      · subst hk
        rw [lookup_set_self] at hl1
        injection hl1 with hb1
        subst hb1
        show BucketInv (logOf k1 (s.dispatchLog ++ [(k1, r.seq)])) s.nextSeq _
        rw [logOf_append, logOf_singleton_self]
        constructor
        · simp only [Bucket.refresh_queue]
          exact hqs.2
        · intro q hquer
          simp only [Bucket.refresh_queue] at hquer
          refine hbinv.queueLt q ?_
          rw [hq]
          exact List.mem_cons_of_mem r hquer
        · intro r0 hr0
          simp only at hr0
          injection hr0 with hr0
          subst hr0
          exact hrlt
        · intro r0 hr0 q hquer
          simp only at hr0 hquer
          injection hr0 with hr0
          subst hr0
          exact hqs.1 q.seq (List.mem_map_of_mem Req.seq hquer)
        · rw [List.pairwise_append]
          refine ⟨hbinv.logMono, by simp, ?_⟩
          intro x hx y hy
          simp only [List.mem_singleton] at hy
          subst hy
          exact hbinv.logLeQueue x hx r hrmem
        · intro l hlmem q hquer
          simp only [Bucket.refresh_queue] at hquer
          rcases List.mem_append.1 hlmem with hlmem | hlmem
          · exact hbinv.logLeQueue l hlmem q (by rw [hq]; exact List.mem_cons_of_mem r hquer)
          · simp only [List.mem_singleton] at hlmem
            subst hlmem
            exact le_of_lt (hqs.1 q.seq (List.mem_map_of_mem Req.seq hquer))
        · intro l hlmem r0 hr0
          simp only at hr0
          injection hr0 with hr0
          subst hr0
          rcases List.mem_append.1 hlmem with hlmem | hlmem
          · exact hbinv.logLeQueue l hlmem r hrmem
          · simp only [List.mem_singleton] at hlmem
            subst hlmem
            exact le_refl _
        · intro l hlmem
          rcases List.mem_append.1 hlmem with hlmem | hlmem
          · exact hbinv.logLt l hlmem
          · simp only [List.mem_singleton] at hlmem
            subst hlmem
            exact hrlt
        · exact le_max_right _ _
      · rw [lookup_set_ne hk] at hl1
        show BucketInv (logOf k1 (s.dispatchLog ++ [(k, r.seq)])) s.nextSeq _
        rw [logOf_append, logOf_singleton_ne (fun he => hk he.symm), List.append_nil]
        exact hInv.bucketsInv k1 b1 hl1
    · intro e he
      rcases List.mem_append.1 he with he | he
      · obtain ⟨b1, hb1⟩ := hInv.logKeys e he
        by_cases hk : e.1 = k
        · rw [hk]
          exact ⟨_, lookup_set_self k _ s.buckets⟩
        · exact ⟨b1, by rw [lookup_set_ne hk]; exact hb1⟩
      · simp only [List.mem_singleton] at he
        subst he
        exact ⟨_, lookup_set_self k _ s.buckets⟩
    · exact le_max_right _ _
    · show (liveOf (setBucket k _ s.buckets)).Nodup
      rw [hliveEq]
      exact hInv.liveNodup
    · intro i hi
      have hi' : i ∈ liveOf (setBucket k _ s.buckets) := hi
      rw [hliveEq] at hi'
      exact hInv.liveLt i hi'
    · exact hInv.resolvedNodup
    · exact hInv.resolvedLt
    · intro i hi
      have hi' : i ∈ liveOf (setBucket k _ s.buckets) := hi
      rw [hliveEq] at hi'
      exact hInv.liveResolvedDisjoint i hi'
    · intro i hi
      rcases hInv.covered i hi with hc | hc
      · refine Or.inl ?_
        show i ∈ liveOf (setBucket k _ s.buckets)
        rw [hliveEq]
        exact hc
      · exact Or.inr hc

@[simp]
theorem Bucket.applyHeaders_queue (h : Headers) (now : Nat) (b : Bucket) :
    (b.applyHeaders h now).queue = b.queue := rfl

@[simp]
theorem Bucket.applyHeaders_inflight (h : Headers) (now : Nat) (b : Bucket) :
    (b.applyHeaders h now).inflight = b.inflight := rfl

theorem inv_release_resolve {s : DState} {k : String} {b b2 : Bucket} {r : Req}
    {rs : Resolution} (hInv : Inv s) (hl : lookupBucket k s.buckets = some b)
    (hi : b.inflight = some r) (hq : b2.queue = b.queue) (hin : b2.inflight = none)
    (hrem : 0 ≤ b2.remaining) :
    Inv { s with buckets := setBucket k b2 s.buckets,
                 resolved := resolveOnce s.resolved r.seq rs } := by
  have hbinv := hInv.bucketsInv k b hl
  have hrlt : r.seq < s.nextSeq := hbinv.inflightLt r hi
  have hrlive : r.seq ∈ liveSeqs s :=
    mem_liveOf_of_lookup hl (by simp [bucketLiveSeqs, hi])
  have hnotres : r.seq ∉ resolvedSeqs s := hInv.liveResolvedDisjoint r.seq hrlive
  have hperm : List.Perm (liveSeqs s) (r.seq :: liveOf (setBucket k b2 s.buckets)) := by
    obtain ⟨pre, post, hbs, -, hset⟩ := lookupBucket_split hl
    rw [hset]
    show List.Perm (liveOf s.buckets) _
    rw [hbs, liveOf_append, liveOf_cons, liveOf_append, liveOf_cons]
    have hbl : bucketLiveSeqs b2 = b.queue.map Req.seq := by
      simp [bucketLiveSeqs, hin, hq]
    have hblb : bucketLiveSeqs b = r.seq :: b.queue.map Req.seq := by
      simp [bucketLiveSeqs, hi]
    rw [hbl, hblb]
    have h0 : liveOf pre ++ (r.seq :: b.queue.map Req.seq ++ liveOf post) =
        liveOf pre ++ (r.seq :: b.queue.map Req.seq) ++ liveOf post := by simp
    have h1 : r.seq :: (liveOf pre ++ b.queue.map Req.seq ++ liveOf post) =
        r.seq :: (liveOf pre ++ (b.queue.map Req.seq ++ liveOf post)) := by simp
    rw [h0, ← h1]
    exact perm_pull_cons (liveOf pre) (b.queue.map Req.seq) (liveOf post) r.seq
  have hnodup2 : (r.seq :: liveOf (setBucket k b2 s.buckets)).Nodup :=
    hperm.nodup hInv.liveNodup
  constructor
  · show ((setBucket k b2 s.buckets).map Prod.fst).Nodup
    rw [keys_set_of_lookup hl]
    exact hInv.keysNodup
  · intro k1 b1 hl1
    by_cases hk : k1 = k
    · subst hk
      rw [lookup_set_self] at hl1
      injection hl1 with hb1
      subst hb1
      show BucketInv (logOf k1 s.dispatchLog) s.nextSeq b2
      constructor
      · rw [hq]; exact hbinv.queueSorted
      · intro q hquer; rw [hq] at hquer; exact hbinv.queueLt q hquer
      · intro r0 hr0; rw [hin] at hr0; exact absurd hr0 (by simp)
      · intro r0 hr0; rw [hin] at hr0; exact absurd hr0 (by simp)
      · exact hbinv.logMono
      · intro l hlm q hquer; rw [hq] at hquer; exact hbinv.logLeQueue l hlm q hquer
      · intro l hlm r0 hr0; rw [hin] at hr0; exact absurd hr0 (by simp)
      · exact hbinv.logLt
      · exact hrem
    · rw [lookup_set_ne hk] at hl1
      exact hInv.bucketsInv k1 b1 hl1
  · intro e he
    by_cases hk : e.1 = k
    · rw [hk]; exact ⟨b2, lookup_set_self k b2 s.buckets⟩
    · obtain ⟨b1, hb1⟩ := hInv.logKeys e he
      exact ⟨b1, by rw [lookup_set_ne hk]; exact hb1⟩
  · exact hInv.globNonneg
  · exact (List.nodup_cons.1 hnodup2).2
  · intro i hi2
    exact hInv.liveLt i (hperm.symm.subset (List.mem_cons_of_mem _ hi2))
  · exact resolveOnce_nodup hInv.resolvedNodup
  · intro i hi2
    rcases resolveOnce_map_fst_mem.1 hi2 with hi2 | rfl
    · exact hInv.resolvedLt i hi2
    · exact hrlt
  · intro i hi2 hc
    rcases resolveOnce_map_fst_mem.1 hc with hc | rfl
    · exact hInv.liveResolvedDisjoint i (hperm.symm.subset (List.mem_cons_of_mem _ hi2)) hc
    · exact (List.nodup_cons.1 hnodup2).1 hi2
  · intro i hilt
    rcases hInv.covered i hilt with hc | hc
    · have := hperm.subset hc
      rcases List.mem_cons.1 this with rfl | hc2
      · exact Or.inr (resolveOnce_map_fst_mem.2 (Or.inr rfl))
      · exact Or.inl hc2
    · exact Or.inr (resolveOnce_map_fst_mem.2 (Or.inl hc))

theorem inv_requeue {s : DState} {k : String} {b b2 : Bucket} {r r2 : Req} {gpu : Nat}
    (hInv : Inv s) (hl : lookupBucket k s.buckets = some b) (hi : b.inflight = some r)
    (hq : b2.queue = r2 :: b.queue) (hseq : r2.seq = r.seq) (hin : b2.inflight = none)
    (hrem : b2.remaining = b.remaining) :
    Inv { s with buckets := setBucket k b2 s.buckets, globalPausedUntil := gpu } := by
  have hbinv := hInv.bucketsInv k b hl
  have hrlt : r.seq < s.nextSeq := hbinv.inflightLt r hi
  have hblive : bucketLiveSeqs b2 = bucketLiveSeqs b := by
    simp [bucketLiveSeqs, hq, hseq, hin, hi]
  have hliveEq : liveOf (setBucket k b2 s.buckets) = liveSeqs s :=
    liveOf_set_congr hl hblive
  constructor
  · show ((setBucket k b2 s.buckets).map Prod.fst).Nodup
    rw [keys_set_of_lookup hl]
    exact hInv.keysNodup
  · intro k1 b1 hl1
    by_cases hk : k1 = k
    · subst hk
      rw [lookup_set_self] at hl1
      injection hl1 with hb1
      subst hb1
      show BucketInv (logOf k1 s.dispatchLog) s.nextSeq b2
      constructor
      · rw [hq, List.map_cons, List.pairwise_cons]
        constructor
        · intro y hy
          obtain ⟨q, hquer, rfl⟩ := List.mem_map.1 hy
          rw [hseq]
          exact hbinv.inflightBefore r hi q hquer
        · exact hbinv.queueSorted
      · intro q hquer
        rw [hq] at hquer
        rcases List.mem_cons.1 hquer with rfl | hquer
        · rw [hseq]; exact hrlt
        · exact hbinv.queueLt q hquer
      · intro r0 hr0; rw [hin] at hr0; exact absurd hr0 (by simp)
      · intro r0 hr0; rw [hin] at hr0; exact absurd hr0 (by simp)
      · exact hbinv.logMono
      · intro l hlm q hquer
        rw [hq] at hquer
        rcases List.mem_cons.1 hquer with rfl | hquer
        · rw [hseq]; exact hbinv.logLeInflight l hlm r hi
        · exact hbinv.logLeQueue l hlm q hquer
      · intro l hlm r0 hr0; rw [hin] at hr0; exact absurd hr0 (by simp)
      · exact hbinv.logLt
      · rw [hrem]; exact hbinv.remNonneg
    · rw [lookup_set_ne hk] at hl1
      exact hInv.bucketsInv k1 b1 hl1
  · intro e he
    by_cases hk : e.1 = k
    · rw [hk]; exact ⟨b2, lookup_set_self k b2 s.buckets⟩
    · obtain ⟨b1, hb1⟩ := hInv.logKeys e he
      exact ⟨b1, by rw [lookup_set_ne hk]; exact hb1⟩
  · exact hInv.globNonneg
  · show (liveOf (setBucket k b2 s.buckets)).Nodup
    rw [hliveEq]
    exact hInv.liveNodup
  · intro i hi2
    have hi' : i ∈ liveOf (setBucket k b2 s.buckets) := hi2
    rw [hliveEq] at hi'
    exact hInv.liveLt i hi'
  · exact hInv.resolvedNodup
  · exact hInv.resolvedLt
  · intro i hi2
    have hi' : i ∈ liveOf (setBucket k b2 s.buckets) := hi2
    rw [hliveEq] at hi'
    exact hInv.liveResolvedDisjoint i hi'
  · intro i hilt
    rcases hInv.covered i hilt with hc | hc
    · refine Or.inl ?_
      show i ∈ liveOf (setBucket k b2 s.buckets)
      rw [hliveEq]
      exact hc
    · exact Or.inr hc

theorem inv_response {s : DState} (hInv : Inv s) (k : String) (o : Outcome) :
    Inv (responseStep s k o) := by
  cases hl : lookupBucket k s.buckets with
  | none =>
    rw [responseStep_no_bucket hl]
    exact hInv
  | some b =>
    cases hi : b.inflight with
    | none =>
      rw [responseStep_no_inflight hl hi]
      exact hInv
    | some r =>
      cases o with
      | success st hdrs =>
        rw [responseStep_success hl hi]
        refine inv_release_resolve hInv hl hi ?_ rfl ?_
        · cases hdrs <;> simp
        · cases hdrs with
          | none =>
            show 0 ≤ b.remaining
            exact (hInv.bucketsInv k b hl).remNonneg
          | some h =>
            show 0 ≤ Int.ofNat h.remaining
            exact Int.ofNat_nonneg h.remaining
      | rateLimited ra g =>
        rw [responseStep_rateLimited hl hi]
        exact inv_requeue hInv hl hi rfl rfl rfl rfl
      | transientFailure st =>
        by_cases ha : r.attempts + 1 ≤ s.cfg.maxAttempts
        · rw [responseStep_transient_retry hl hi ha]
          exact inv_requeue hInv hl hi rfl rfl rfl rfl
        · rw [responseStep_transient_fail hl hi ha]
          exact inv_release_resolve hInv hl hi rfl rfl (hInv.bucketsInv k b hl).remNonneg
      | clientError st =>
        rw [responseStep_clientError hl hi]
        exact inv_release_resolve hInv hl hi rfl rfl (hInv.bucketsInv k b hl).remNonneg

theorem liveOf_sweep_perm (now : Nat) (bs : List (String × Bucket)) :
    List.Perm (liveOf bs)
      (liveOf (bs.map fun kb => (kb.1, sweepBucket now kb.2)) ++ expiredOf now bs) := by
  induction bs with
  | nil => simp [expiredOf]
  | cons kb rest ih =>
    simp only [List.map_cons, liveOf_cons, expiredOf]
    have hq : List.Perm (kb.2.queue.map Req.seq)
        ((kb.2.queue.filter fun r => ! Req.expiredAt now r).map Req.seq ++
         (kb.2.queue.filter (Req.expiredAt now)).map Req.seq) := by
      have h0 := ((List.filter_append_perm (Req.expiredAt now) kb.2.queue).symm.trans
        List.perm_append_comm).map Req.seq
      rw [List.map_append] at h0
      exact h0
    have hb : List.Perm (bucketLiveSeqs kb.2)
        (bucketLiveSeqs (sweepBucket now kb.2) ++
         (kb.2.queue.filter (Req.expiredAt now)).map Req.seq) := by
      show List.Perm
        ((match kb.2.inflight with | some r => [r.seq] | none => []) ++ kb.2.queue.map Req.seq) _
      have hbl : bucketLiveSeqs (sweepBucket now kb.2) =
          (match kb.2.inflight with | some r => [r.seq] | none => []) ++
          (kb.2.queue.filter fun r => ! Req.expiredAt now r).map Req.seq := by
        simp [bucketLiveSeqs, sweepBucket]
      rw [hbl, List.append_assoc]
      exact List.Perm.append_left _ hq
    exact (hb.append ih).trans (perm_shuffle _ _ _ _)

theorem BucketInv.sweep {log : List Nat} {n : Nat} {b : Bucket} {now : Nat}
    (h : BucketInv log n b) : BucketInv log n (sweepBucket now b) := by
  constructor
  · exact List.Pairwise.sublist ((List.filter_sublist _).map Req.seq) h.queueSorted
  · intro q hq
    exact h.queueLt q (List.mem_of_mem_filter hq)
  · exact h.inflightLt
  · intro r hr q hq
    exact h.inflightBefore r hr q (List.mem_of_mem_filter hq)
  · exact h.logMono
  · intro l hl q hq
    exact h.logLeQueue l hl q (List.mem_of_mem_filter hq)
  · exact h.logLeInflight
  · exact h.logLt
  · exact h.remNonneg

theorem inv_sweep {s : DState} (hInv : Inv s) : Inv (sweepStep s) := by
  have hperm := liveOf_sweep_perm s.now s.buckets
  have hnodup2 := hperm.nodup hInv.liveNodup
  have hnodup3 := List.nodup_append.1 hnodup2
  constructor
  · show ((s.buckets.map fun kb => (kb.1, sweepBucket s.now kb.2)).map Prod.fst).Nodup
    rw [List.map_map]
    exact hInv.keysNodup
  · intro k1 b1 hl1
    rw [show (sweepStep s).buckets =
      s.buckets.map fun kb => (kb.1, sweepBucket s.now kb.2) from rfl] at hl1
    rw [lookupBucket_map] at hl1
    cases hl0 : lookupBucket k1 s.buckets with
    | none => rw [hl0] at hl1; exact absurd hl1 (by simp)
    | some b =>
      rw [hl0] at hl1
      have hb1 : sweepBucket s.now b = b1 := by simpa using hl1
      subst hb1
      exact (hInv.bucketsInv k1 b hl0).sweep
  · intro e he
    obtain ⟨b1, hb1⟩ := hInv.logKeys e he
    refine ⟨sweepBucket s.now b1, ?_⟩
    show lookupBucket e.1 (s.buckets.map fun kb => (kb.1, sweepBucket s.now kb.2)) = _
    rw [lookupBucket_map, hb1]
    rfl
  · exact hInv.globNonneg
  · exact hnodup3.1
  · intro i hi
    exact hInv.liveLt i (hperm.symm.subset (List.mem_append_left _ hi))
  · exact resolveSeqs_nodup hInv.resolvedNodup
  · intro i hi
    rcases resolveSeqs_map_fst_mem.1 hi with hi | hi
    · exact hInv.resolvedLt i hi
    · exact hInv.liveLt i (hperm.symm.subset (List.mem_append_right _ hi))
  · intro i hi hc
    rcases resolveSeqs_map_fst_mem.1 hc with hc | hc
    · exact hInv.liveResolvedDisjoint i
        (hperm.symm.subset (List.mem_append_left _ hi)) hc
    · exact hnodup3.2.2 hi hc
  · intro i hilt
    rcases hInv.covered i hilt with hc | hc
    · rcases List.mem_append.1 (hperm.subset hc) with hc2 | hc2
      · exact Or.inl hc2
      · exact Or.inr (resolveSeqs_map_fst_mem.2 (Or.inr hc2))
    · exact Or.inr (resolveSeqs_map_fst_mem.2 (Or.inl hc))

theorem inv_step {s : DState} (hInv : Inv s) (e : Event) : Inv (step s e) := by
  cases e with
  | enqueue k d => exact inv_enqueue hInv k d
  | tick dt => exact inv_tick hInv dt
  | dispatch k => exact inv_dispatch hInv k
  | response k o => exact inv_response hInv k o
  | sweep => exact inv_sweep hInv

theorem inv_runFrom {s : DState} (hInv : Inv s) (evs : List Event) :
    Inv (runFrom s evs) := by
  induction evs generalizing s with
  | nil => exact hInv
  | cons e rest ih => exact ih (inv_step hInv e)

theorem inv_init (cfg : Config) (globalLimit globalWindowMs : Nat) :
    Inv (initState cfg globalLimit globalWindowMs) := by
  constructor
  · simp [initState]
  · intro k b hl
    simp [initState, lookupBucket] at hl
  · intro e he
    simp [initState] at he
  · exact Int.ofNat_nonneg globalLimit
  · simp [initState, liveSeqs]
  · intro i hi
    simp [initState, liveSeqs] at hi
  · simp [initState, resolvedSeqs]
  · intro i hi
    simp [initState, resolvedSeqs] at hi
  · intro i hi
    simp [initState, liveSeqs] at hi
  · intro i hi
    simp [initState] at hi

theorem inv_run (cfg : Config) (globalLimit globalWindowMs : Nat) (evs : List Event) :
    Inv (run cfg globalLimit globalWindowMs evs) :=
  inv_runFrom (inv_init cfg globalLimit globalWindowMs) evs

theorem step_resolved_mono (s : DState) (e : Event) {i : Nat}
    (hi : i ∈ resolvedSeqs s) : i ∈ resolvedSeqs (step s e) := by
  cases e with
  | enqueue k d => exact hi
  | tick dt => exact hi
  | sweep => exact resolveSeqs_map_fst_mem.2 (Or.inl hi)
  | dispatch k =>
    cases hd : dispatchTry s k with
    | none =>
      show i ∈ resolvedSeqs (dispatchStep s k)
      rw [dispatchStep_of_none hd]
      exact hi
    | some p =>
      obtain ⟨r, b', g'⟩ := p
      show i ∈ resolvedSeqs (dispatchStep s k)
      rw [dispatchStep_of_some hd]
      exact hi
  | response k o =>
    show i ∈ resolvedSeqs (responseStep s k o)
    cases hl : lookupBucket k s.buckets with
    | none => rw [responseStep_no_bucket hl]; exact hi
    | some b =>
      cases hif : b.inflight with
      | none => rw [responseStep_no_inflight hl hif]; exact hi
      | some r =>
        cases o with
        | success st hdrs =>
          rw [responseStep_success hl hif]
          exact resolveOnce_map_fst_mem.2 (Or.inl hi)
        | rateLimited ra g =>
          rw [responseStep_rateLimited hl hif]
          exact hi
        | transientFailure st =>
          by_cases ha : r.attempts + 1 ≤ s.cfg.maxAttempts
          · rw [responseStep_transient_retry hl hif ha]
            exact hi
          · rw [responseStep_transient_fail hl hif ha]
            exact resolveOnce_map_fst_mem.2 (Or.inl hi)
        | clientError st =>
          rw [responseStep_clientError hl hif]
          exact resolveOnce_map_fst_mem.2 (Or.inl hi)

theorem runFrom_log_extend (s : DState) (evs : List Event) :
    ∃ u, (runFrom s evs).dispatchLog = s.dispatchLog ++ u := by
  induction evs generalizing s with
  | nil => exact ⟨[], by simp [runFrom]⟩
  | cons e rest ih =>
    obtain ⟨t, ht, -⟩ := step_dispatchLog s e
    obtain ⟨u, hu⟩ := ih (step s e)
    refine ⟨t ++ u, ?_⟩
    show (runFrom (step s e) rest).dispatchLog = _
    rw [hu, ht, List.append_assoc]

theorem no_dispatch_after_resolved {s : DState} (hInv : Inv s) {i : Nat}
    (hi : i ∈ resolvedSeqs s) (evs : List Event) :
    i ∉ (((runFrom s evs).dispatchLog.drop s.dispatchLog.length).map Prod.snd) := by
  induction evs generalizing s with
  | nil => simp [runFrom]
  | cons e rest ih =>
    obtain ⟨t, ht, htlive⟩ := step_dispatchLog s e
    obtain ⟨u, hu⟩ := runFrom_log_extend (step s e) rest
    have hInv' := inv_step hInv e
    have hi' : i ∈ resolvedSeqs (step s e) := step_resolved_mono s e hi
    have ihs := ih hInv' hi'
    show i ∉ (((runFrom (step s e) rest).dispatchLog.drop s.dispatchLog.length).map Prod.snd)
    rw [hu, ht, List.append_assoc, List.drop_left, List.map_append]
    intro hmem
    rcases List.mem_append.1 hmem with hmem | hmem
    · obtain ⟨p, hp, hpi⟩ := List.mem_map.1 hmem
      have hlive := htlive p hp
      rw [hpi] at hlive
      exact hInv.liveResolvedDisjoint i hlive hi
    · refine ihs ?_
      rw [hu, ht]
      have : ((s.dispatchLog ++ t) ++ u).drop (s.dispatchLog ++ t).length = u :=
        List.drop_left _ _
      rw [this]
      exact hmem

theorem logSeqs_pairwise {s : DState} (hInv : Inv s) (k : String) :
    (logSeqs k s).Pairwise (· ≤ ·) := by
  cases hl : lookupBucket k s.buckets with
  | some b => exact (hInv.bucketsInv k b hl).logMono
  | none =>
    have hnil : logSeqs k s = [] := by
      refine logOf_eq_nil ?_
      intro e he hek
      obtain ⟨b, hb⟩ := hInv.logKeys e he
      rw [hek, hl] at hb
      exact absurd hb (by simp)
    rw [hnil]
    exact List.Pairwise.nil

theorem dispatchTry_processing {s : DState} {k : String} {b : Bucket}
    (hl : lookupBucket k s.buckets = some b) (hp : b.processing = true) :
    dispatchTry s k = none := by
  unfold dispatchTry
  split
  · rfl
  · rw [hl]
    simp only
    split
    · have : b.tryDequeue s.now = none := by
        unfold Bucket.tryDequeue
        rw [if_pos hp]
      rw [this]
    · rfl

theorem responseStep_releases {s : DState} {k : String} {b : Bucket}
    (hl : lookupBucket k s.buckets = some b) (o : Outcome) :
    ∃ b2, lookupBucket k (responseStep s k o).buckets = some b2 ∧
      b2.processing = false := by
  cases hif : b.inflight with
  | none =>
    rw [responseStep_no_inflight hl hif]
    exact ⟨b, hl, by simp [Bucket.processing, hif]⟩
  | some r =>
    cases o with
    | success st hdrs =>
      rw [responseStep_success hl hif]
      exact ⟨_, lookup_set_self k _ s.buckets, by simp [Bucket.processing]⟩
    | rateLimited ra g =>
      rw [responseStep_rateLimited hl hif]
      exact ⟨_, lookup_set_self k _ s.buckets, by simp [Bucket.processing]⟩
    | transientFailure st =>
      by_cases ha : r.attempts + 1 ≤ s.cfg.maxAttempts
      · rw [responseStep_transient_retry hl hif ha]
        exact ⟨_, lookup_set_self k _ s.buckets, by simp [Bucket.processing]⟩
      · rw [responseStep_transient_fail hl hif ha]
        exact ⟨_, lookup_set_self k _ s.buckets, by simp [Bucket.processing]⟩
    | clientError st =>
      rw [responseStep_clientError hl hif]
      exact ⟨_, lookup_set_self k _ s.buckets, by simp [Bucket.processing]⟩

theorem dispatchStep_globalPaused {s : DState} (k : String)
    (h : s.now < s.globalPausedUntil) : dispatchStep s k = s := by
  apply dispatchStep_of_none
  unfold dispatchTry
  rw [if_pos h]

theorem expiredOf_append (now : Nat) (l m : List (String × Bucket)) :
    expiredOf now (l ++ m) = expiredOf now l ++ expiredOf now m := by
  induction l with
  | nil => simp [expiredOf]
  | cons kb rest ih => simp [expiredOf, ih]

/-! ### Claim theorems for the dispatcher core -/

/-- C1: for every execution and every bucket, the requests issued to the
transport carry non-decreasing submission sequence numbers (strict submission
order, retries re-dispatching the same number), and a retried request - a 429
or a transient failure with attempts remaining - re-enters at the front of
its bucket's queue with a sequence number smaller than that of every queued
request, so it keeps its original position ahead of all requests submitted
after it. -/
theorem C1_fifo_per_bucket (cfg : Config) (gl gw : Nat) (evs : List Event) (k : String) :
    (logSeqs k (run cfg gl gw evs)).Pairwise (· ≤ ·) ∧
    (∀ s b r, Inv s → lookupBucket k s.buckets = some b → b.inflight = some r →
      (∀ q ∈ b.queue, r.seq < q.seq) ∧
      (∀ ra g, ∃ b', lookupBucket k (responseStep s k (.rateLimited ra g)).buckets = some b' ∧
        b'.queue = { r with attempts := r.attempts + 1 } :: b.queue) ∧
      (∀ st, r.attempts + 1 ≤ s.cfg.maxAttempts →
        ∃ b', lookupBucket k (responseStep s k (.transientFailure st)).buckets = some b' ∧
          b'.queue = { r with
                       attempts := r.attempts + 1
                       notBefore := s.now + backoffDelay s.cfg r.attempts } :: b.queue)) := by
  constructor
  · exact logSeqs_pairwise (inv_run cfg gl gw evs) k
  · intro s b r hInv hl hi
    refine ⟨fun q hq => (hInv.bucketsInv k b hl).inflightBefore r hi q hq, ?_, ?_⟩
    · intro ra g
      rw [responseStep_rateLimited hl hi]
      exact ⟨_, lookup_set_self k _ s.buckets, rfl⟩
    · intro st ha
      rw [responseStep_transient_retry hl hi ha]
      exact ⟨_, lookup_set_self k _ s.buckets, rfl⟩

/-- Witness for C1 at a concrete execution: two requests to bucket `a`, the
first dispatched and then throttled; its retry sits at the head of the queue
ahead of the second request. -/
theorem C1_witness :
    (logSeqs "a" (run ⟨3, 100, 1000⟩ 10 1000
      [.enqueue "a" none, .enqueue "a" none, .dispatch "a"])).Pairwise (· ≤ ·) ∧
    ∃ b', lookupBucket "a" (responseStep (run ⟨3, 100, 1000⟩ 10 1000
        [.enqueue "a" none, .enqueue "a" none, .dispatch "a"]) "a"
        (.rateLimited 50 false)).buckets = some b' ∧
      b'.queue = [{ seq := 0, attempts := 2, deadline := none, notBefore := 0 },
                  { seq := 1, attempts := 1, deadline := none, notBefore := 0 }] := by
  have h := C1_fifo_per_bucket ⟨3, 100, 1000⟩ 10 1000
    [.enqueue "a" none, .enqueue "a" none, .dispatch "a"] "a"
  refine ⟨h.1, ?_⟩
  have h2 := h.2 (run ⟨3, 100, 1000⟩ 10 1000
      [.enqueue "a" none, .enqueue "a" none, .dispatch "a"])
    { limit := 1, remaining := 0, resetAt := 0, windowMs := 0,
      queue := [{ seq := 1, attempts := 1, deadline := none, notBefore := 0 }],
      inflight := some { seq := 0, attempts := 1, deadline := none, notBefore := 0 },
      pausedUntil := 0 }
    { seq := 0, attempts := 1, deadline := none, notBefore := 0 }
    (inv_run ⟨3, 100, 1000⟩ 10 1000
      [.enqueue "a" none, .enqueue "a" none, .dispatch "a"])
    (by decide) (by decide)
  obtain ⟨b', hb', hq⟩ := h2.2.1 50 false
  exact ⟨b', hb', by rw [hq]⟩

/-- C2: in every reachable state, no completion handle is ever resolved
twice (the resolution log has no duplicate sequence numbers), no live request
is already resolved, every request ever created is either still alive or
resolved (none is dropped), and in any completed execution (no request left
alive) every request is resolved exactly once. -/
theorem C2_resolve_exactly_once (cfg : Config) (gl gw : Nat) (evs : List Event) :
    (resolvedSeqs (run cfg gl gw evs)).Nodup ∧
    (∀ i ∈ liveSeqs (run cfg gl gw evs), i ∉ resolvedSeqs (run cfg gl gw evs)) ∧
    (∀ i, i < (run cfg gl gw evs).nextSeq →
      i ∈ liveSeqs (run cfg gl gw evs) ∨ i ∈ resolvedSeqs (run cfg gl gw evs)) ∧
    (liveSeqs (run cfg gl gw evs) = [] → ∀ i, i < (run cfg gl gw evs).nextSeq →
      (resolvedSeqs (run cfg gl gw evs)).count i = 1) := by
  have hInv := inv_run cfg gl gw evs
  refine ⟨hInv.resolvedNodup, hInv.liveResolvedDisjoint, hInv.covered, ?_⟩
  intro hempty i hi
  rcases hInv.covered i hi with hc | hc
  · rw [hempty] at hc
    exact absurd hc (by simp)
  · exact List.count_eq_one_of_mem hInv.resolvedNodup hc

/-- Witness for C2 at a concrete completed execution: one request enqueued,
dispatched and answered; nothing is left alive and its handle is resolved
exactly once. -/
theorem C2_witness :
    liveSeqs (run ⟨3, 100, 1000⟩ 10 1000
      [.enqueue "a" none, .dispatch "a", .response "a" (.success 200 none)]) = [] ∧
    (resolvedSeqs (run ⟨3, 100, 1000⟩ 10 1000
      [.enqueue "a" none, .dispatch "a", .response "a" (.success 200 none)])).count 0 = 1 := by
  have h := C2_resolve_exactly_once ⟨3, 100, 1000⟩ 10 1000
    [.enqueue "a" none, .dispatch "a", .response "a" (.success 200 none)]
  exact ⟨by decide, h.2.2.2 (by decide) 0 (by decide)⟩

/-- C3: in every reachable state every bucket's `remaining` counter is
non-negative (decrements clamp at zero), a bucket whose `processing` flag is
set dispatches nothing (the scheduling step leaves the state unchanged), and
handling the response of the in-flight request releases the bucket
(`processing` is cleared), which is what allows the next dequeue. -/
theorem C3_remaining_nonneg_and_serial (cfg : Config) (gl gw : Nat) (evs : List Event)
    (k : String) (b : Bucket)
    (hl : lookupBucket k (run cfg gl gw evs).buckets = some b) :
    0 ≤ b.remaining ∧
    (b.processing = true → dispatchStep (run cfg gl gw evs) k = run cfg gl gw evs) ∧
    (∀ o, ∃ b2, lookupBucket k (responseStep (run cfg gl gw evs) k o).buckets = some b2 ∧
      b2.processing = false) := by
  have hInv := inv_run cfg gl gw evs
  refine ⟨(hInv.bucketsInv k b hl).remNonneg, ?_, ?_⟩
  · intro hp
    exact dispatchStep_of_none (dispatchTry_processing hl hp)
  · intro o
    exact responseStep_releases hl o

/-- Witness for C3 at a concrete execution: a bucket with an in-flight
request has non-negative `remaining`, a scheduling visit is a no-op, and the
response releases it. -/
theorem C3_witness :
    (0 : Int) ≤ 0 ∧
    (dispatchStep (run ⟨3, 100, 1000⟩ 10 1000
      [.enqueue "a" none, .enqueue "a" none, .dispatch "a"]) "a" =
      run ⟨3, 100, 1000⟩ 10 1000 [.enqueue "a" none, .enqueue "a" none, .dispatch "a"]) ∧
    (∃ b2, lookupBucket "a" (responseStep (run ⟨3, 100, 1000⟩ 10 1000
        [.enqueue "a" none, .enqueue "a" none, .dispatch "a"]) "a"
        (.success 200 none)).buckets = some b2 ∧ b2.processing = false) := by
  have h := C3_remaining_nonneg_and_serial ⟨3, 100, 1000⟩ 10 1000
    [.enqueue "a" none, .enqueue "a" none, .dispatch "a"] "a"
    { limit := 1, remaining := 0, resetAt := 0, windowMs := 0,
      queue := [{ seq := 1, attempts := 1, deadline := none, notBefore := 0 }],
      inflight := some { seq := 0, attempts := 1, deadline := none, notBefore := 0 },
      pausedUntil := 0 }
    (by decide)
  exact ⟨h.1, h.2.1 (by decide), h.2.2 (.success 200 none)⟩

/-- C4: in every state, if a scheduling visit to a bucket actually issues a
request to the transport, then at that moment the bucket reported
`remaining > 0` or its window had already reset, the global limiter likewise,
and the dispatch consumed one unit of (window-refreshed) global capacity. -/
theorem C4_gating_and_global_consumption (s : DState) (k : String)
    (h : (dispatchStep s k).dispatchLog ≠ s.dispatchLog) :
    ∃ b r b' g', lookupBucket k s.buckets = some b ∧
      dispatchTry s k = some (r, b', g') ∧
      (0 < b.remaining ∨ b.resetAt ≤ s.now) ∧
      (0 < s.glob.remaining ∨ s.glob.resetAt ≤ s.now) ∧
      (dispatchStep s k).glob.remaining =
        max ((s.glob.refresh s.now).remaining - 1) 0 := by
  cases hd : dispatchTry s k with
  | none => exact absurd (by rw [dispatchStep_of_none hd]) h
  | some p =>
    obtain ⟨r, b', g'⟩ := p
    obtain ⟨b, hl, htd, hg', hgpos, -⟩ := dispatchTry_eq_some hd
    obtain ⟨-, rest, -, -, hbrem, -, -⟩ := tryDequeue_eq_some htd
    refine ⟨b, r, b', g', hl, rfl, ?_, ?_, ?_⟩
    · by_cases hw : b.resetAt ≤ s.now
      · exact Or.inr hw
      · refine Or.inl ?_
        have : b.refresh s.now = b := by
          unfold Bucket.refresh
          rw [if_neg hw]
        rw [this] at hbrem
        exact hbrem
    · by_cases hw : s.glob.resetAt ≤ s.now
      · exact Or.inr hw
      · refine Or.inl ?_
        have : s.glob.refresh s.now = s.glob := by
          unfold GlobalLimiter.refresh
          rw [if_neg hw]
        rw [this] at hgpos
        exact hgpos
    · rw [dispatchStep_of_some hd, hg']

/-- Witness for C4 at a concrete execution: the first dispatch of bucket `a`
satisfies both gates and consumes one unit of global capacity. -/
theorem C4_witness :
    (dispatchStep (run ⟨3, 100, 1000⟩ 10 1000 [.enqueue "a" none]) "a").dispatchLog ≠
      (run ⟨3, 100, 1000⟩ 10 1000 [.enqueue "a" none]).dispatchLog ∧
    ∃ b r b' g',
      lookupBucket "a" (run ⟨3, 100, 1000⟩ 10 1000 [.enqueue "a" none]).buckets = some b ∧
      dispatchTry (run ⟨3, 100, 1000⟩ 10 1000 [.enqueue "a" none]) "a" = some (r, b', g') ∧
      (0 < b.remaining ∨ b.resetAt ≤ (run ⟨3, 100, 1000⟩ 10 1000 [.enqueue "a" none]).now) ∧
      (0 < (run ⟨3, 100, 1000⟩ 10 1000 [.enqueue "a" none]).glob.remaining ∨
        (run ⟨3, 100, 1000⟩ 10 1000 [.enqueue "a" none]).glob.resetAt ≤
          (run ⟨3, 100, 1000⟩ 10 1000 [.enqueue "a" none]).now) ∧
      (dispatchStep (run ⟨3, 100, 1000⟩ 10 1000 [.enqueue "a" none]) "a").glob.remaining =
        max (((run ⟨3, 100, 1000⟩ 10 1000 [.enqueue "a" none]).glob.refresh
          (run ⟨3, 100, 1000⟩ 10 1000 [.enqueue "a" none]).now).remaining - 1) 0 := by
  refine ⟨by decide, ?_⟩
  exact C4_gating_and_global_consumption
    (run ⟨3, 100, 1000⟩ 10 1000 [.enqueue "a" none]) "a" (by decide)

/-- C5: handling a 429 with `global = false` pauses only the offending
bucket until `now + retryAfter` - every other bucket, the global limiter and
the global pause are untouched, so a scheduling visit to any other bucket
behaves exactly as before - and the throttled request is re-enqueued at the
head of its bucket's queue with its attempt counter incremented; with
`global = true` the global pause is set to `now + retryAfter` and, while it
lasts, a scheduling visit to any bucket dispatches nothing. -/
theorem C5_429_pauses (s : DState) (k : String) (b : Bucket) (r : Req) (ra : Nat)
    (hl : lookupBucket k s.buckets = some b) (hi : b.inflight = some r) :
    (∃ b', lookupBucket k (responseStep s k (.rateLimited ra false)).buckets = some b' ∧
       b'.pausedUntil = s.now + ra ∧
       b'.queue = { r with attempts := r.attempts + 1 } :: b.queue ∧
       b'.inflight = none) ∧
    (∀ k', k' ≠ k →
       lookupBucket k' (responseStep s k (.rateLimited ra false)).buckets =
         lookupBucket k' s.buckets) ∧
    (responseStep s k (.rateLimited ra false)).globalPausedUntil = s.globalPausedUntil ∧
    (responseStep s k (.rateLimited ra false)).glob = s.glob ∧
    (∀ k', k' ≠ k →
       dispatchTry (responseStep s k (.rateLimited ra false)) k' = dispatchTry s k') ∧
    (responseStep s k (.rateLimited ra true)).globalPausedUntil = s.now + ra ∧
    (∃ b', lookupBucket k (responseStep s k (.rateLimited ra true)).buckets = some b' ∧
       b'.pausedUntil = b.pausedUntil ∧
       b'.queue = { r with attempts := r.attempts + 1 } :: b.queue) ∧
    (∀ k', 0 < ra →
       dispatchStep (responseStep s k (.rateLimited ra true)) k' =
         responseStep s k (.rateLimited ra true)) := by
  refine ⟨?_, ?_, ?_, ?_, ?_, ?_, ?_, ?_⟩
  · rw [responseStep_rateLimited hl hi]
    refine ⟨_, lookup_set_self k _ s.buckets, ?_, rfl, rfl⟩
    simp
  · intro k' hk
    rw [responseStep_rateLimited hl hi]
    show lookupBucket k' (setBucket k _ s.buckets) = _
    rw [lookup_set_ne hk]
  · rw [responseStep_rateLimited hl hi]
    simp
  · rw [responseStep_rateLimited hl hi]
  · intro k' hk
    rw [responseStep_rateLimited hl hi]
    unfold dispatchTry
    simp only [lookup_set_ne hk]
    simp
  · rw [responseStep_rateLimited hl hi]
    simp
  · rw [responseStep_rateLimited hl hi]
    refine ⟨_, lookup_set_self k _ s.buckets, ?_, rfl⟩
    simp
  · intro k' hra
    rw [responseStep_rateLimited hl hi]
    refine dispatchStep_globalPaused k' ?_
    show s.now < (if true then s.now + ra else s.globalPausedUntil)
    simp only [if_true]
    omega

/-- Witness for C5 at a concrete execution: a dispatched request on bucket
`a` gets a 429 with retry-after 50; the bucket is paused until 50 and the
request sits back at the head with attempt counter 2. -/
theorem C5_witness :
    ∃ b', lookupBucket "a" (responseStep (run ⟨3, 100, 1000⟩ 10 1000
        [.enqueue "a" none, .dispatch "a"]) "a" (.rateLimited 50 false)).buckets = some b' ∧
      b'.pausedUntil = 50 ∧
      b'.queue = [{ seq := 0, attempts := 2, deadline := none, notBefore := 0 }] ∧
      b'.inflight = none := by
  have h := C5_429_pauses (run ⟨3, 100, 1000⟩ 10 1000 [.enqueue "a" none, .dispatch "a"])
    "a"
    { limit := 1, remaining := 0, resetAt := 0, windowMs := 0, queue := [],
      inflight := some { seq := 0, attempts := 1, deadline := none, notBefore := 0 },
      pausedUntil := 0 }
    { seq := 0, attempts := 1, deadline := none, notBefore := 0 } 50
    (by decide) (by decide)
  obtain ⟨b', hb', hp, hq, hin⟩ := h.1
  refine ⟨b', hb', ?_, ?_, hin⟩
  · rw [hp]
    decide
  · rw [hq]

/-- C6: on a transient transport failure the attempt counter is incremented;
while the new attempt number stays within `maxAttempts` the request is
re-enqueued at the head of its bucket's queue with an exponential backoff
delay `min (baseBackoffMs * 2 ^ (attempts - 1)) maxBackoffMs` (doubling per
attempt, capped) and nothing is resolved; once the ceiling is exceeded the
request is resolved permanently with `transientExhausted` carrying the last
observed status and is not re-enqueued. -/
theorem C6_transient_backoff (s : DState) (k : String) (b : Bucket) (r : Req)
    (st : Nat) (hInv : Inv s) (hl : lookupBucket k s.buckets = some b)
    (hi : b.inflight = some r) :
    (r.attempts + 1 ≤ s.cfg.maxAttempts →
      (∃ b', lookupBucket k (responseStep s k (.transientFailure st)).buckets = some b' ∧
        b'.queue = { r with
                     attempts := r.attempts + 1
                     notBefore := s.now +
                       min (s.cfg.baseBackoffMs * 2 ^ (r.attempts - 1)) s.cfg.maxBackoffMs }
          :: b.queue ∧ b'.inflight = none) ∧
      (responseStep s k (.transientFailure st)).resolved = s.resolved) ∧
    (¬ r.attempts + 1 ≤ s.cfg.maxAttempts →
      (r.seq, Resolution.transientExhausted st) ∈
        (responseStep s k (.transientFailure st)).resolved ∧
      ∃ b', lookupBucket k (responseStep s k (.transientFailure st)).buckets = some b' ∧
        b'.queue = b.queue ∧ b'.inflight = none) := by
  constructor
  · intro ha
    rw [responseStep_transient_retry hl hi ha]
    exact ⟨⟨_, lookup_set_self k _ s.buckets, rfl, rfl⟩, rfl⟩
  · intro ha
    rw [responseStep_transient_fail hl hi ha]
    have hrlive : r.seq ∈ liveSeqs s :=
      mem_liveOf_of_lookup hl (by simp [bucketLiveSeqs, hi])
    have hnr : r.seq ∉ resolvedSeqs s := hInv.liveResolvedDisjoint r.seq hrlive
    exact ⟨resolveOnce_self_mem hnr, _, lookup_set_self k _ s.buckets, rfl, rfl⟩

/-- Witness for C6 at a concrete execution: the first attempt fails with a
502; with `maxAttempts = 3` and `baseBackoffMs = 100` the request is retried
at the head with backoff 100 and nothing is resolved. -/
theorem C6_witness :
    ∃ b', lookupBucket "a" (responseStep (run ⟨3, 100, 1000⟩ 10 1000
        [.enqueue "a" none, .dispatch "a"]) "a" (.transientFailure 502)).buckets = some b' ∧
      b'.queue = [{ seq := 0, attempts := 2, deadline := none, notBefore := 100 }] ∧
      b'.inflight = none ∧
      (responseStep (run ⟨3, 100, 1000⟩ 10 1000
        [.enqueue "a" none, .dispatch "a"]) "a" (.transientFailure 502)).resolved =
        (run ⟨3, 100, 1000⟩ 10 1000 [.enqueue "a" none, .dispatch "a"]).resolved := by
  have h := C6_transient_backoff (run ⟨3, 100, 1000⟩ 10 1000 [.enqueue "a" none, .dispatch "a"])
    "a"
    { limit := 1, remaining := 0, resetAt := 0, windowMs := 0, queue := [],
      inflight := some { seq := 0, attempts := 1, deadline := none, notBefore := 0 },
      pausedUntil := 0 }
    { seq := 0, attempts := 1, deadline := none, notBefore := 0 } 502
    (inv_run ⟨3, 100, 1000⟩ 10 1000 [.enqueue "a" none, .dispatch "a"])
    (by decide) (by decide)
  obtain ⟨⟨b', hb', hq, hin⟩, hres⟩ := h.1 (by decide)
  refine ⟨b', hb', ?_, hin, hres⟩
  rw [hq]
  decide

/-- C7: the deadline sweep replaces every bucket's queue by the subsequence
of requests whose deadline has not elapsed - leaving the position and state
of every other queued request unchanged - resolves each removed request with
`timeout` exactly once (resolution-log count 1), and a resolved request is
never issued to the transport by any later step. -/
theorem C7_deadline_timeout (cfg : Config) (gl gw : Nat) (evs : List Event) :
    (∀ k b, lookupBucket k (run cfg gl gw evs).buckets = some b →
      lookupBucket k (sweepStep (run cfg gl gw evs)).buckets =
        some { b with
               queue := b.queue.filter fun q => ! Req.expiredAt (run cfg gl gw evs).now q }) ∧
    (∀ k b q, lookupBucket k (run cfg gl gw evs).buckets = some b → q ∈ b.queue →
      Req.expiredAt (run cfg gl gw evs).now q = true →
      (q.seq, Resolution.timeout) ∈ (sweepStep (run cfg gl gw evs)).resolved ∧
      (resolvedSeqs (sweepStep (run cfg gl gw evs))).count q.seq = 1) ∧
    (∀ i ∈ resolvedSeqs (sweepStep (run cfg gl gw evs)), ∀ evs2,
      i ∉ (((runFrom (sweepStep (run cfg gl gw evs)) evs2).dispatchLog.drop
        (sweepStep (run cfg gl gw evs)).dispatchLog.length).map Prod.snd)) := by
  have hInv := inv_run cfg gl gw evs
  refine ⟨?_, ?_, ?_⟩
  · intro k b hl
    show lookupBucket k ((run cfg gl gw evs).buckets.map fun kb =>
      (kb.1, sweepBucket (run cfg gl gw evs).now kb.2)) = _
    rw [lookupBucket_map, hl]
    rfl
  · intro k b q hl hq hexp
    have hmemexp : q.seq ∈ expiredOf (run cfg gl gw evs).now (run cfg gl gw evs).buckets := by
      obtain ⟨pre, post, hbs, -, -⟩ := lookupBucket_split hl
      rw [hbs, expiredOf_append]
      refine List.mem_append_right _ ?_
      show q.seq ∈ (b.queue.filter (Req.expiredAt _)).map Req.seq ++ expiredOf _ post
      refine List.mem_append_left _ ?_
      exact List.mem_map_of_mem Req.seq (List.mem_filter.2 ⟨hq, hexp⟩)
    have hlive : q.seq ∈ liveSeqs (run cfg gl gw evs) := by
      refine mem_liveOf_of_lookup hl ?_
      show q.seq ∈ (match b.inflight with | some r => [r.seq] | none => []) ++
        b.queue.map Req.seq
      exact List.mem_append_right _ (List.mem_map_of_mem Req.seq hq)
    have hnr : q.seq ∉ resolvedSeqs (run cfg gl gw evs) :=
      hInv.liveResolvedDisjoint _ hlive
    have hpair : (q.seq, Resolution.timeout) ∈ (sweepStep (run cfg gl gw evs)).resolved :=
      resolveSeqs_pair_mem hmemexp hnr
    refine ⟨hpair, ?_⟩
    exact List.count_eq_one_of_mem (inv_sweep hInv).resolvedNodup
      (List.mem_map_of_mem Prod.fst hpair)
  · intro i hi evs2
    exact no_dispatch_after_resolved (inv_sweep hInv) hi evs2

/-- Witness for C7 at a concrete execution: of two queued requests the one
whose deadline (5) elapsed by time 10 is swept - resolved with `timeout`
exactly once and removed - while the other stays queued; the swept request
is never dispatched by a later scheduling step. -/
theorem C7_witness :
    lookupBucket "a" (sweepStep (run ⟨3, 100, 1000⟩ 10 1000
        [.enqueue "a" (some 5), .enqueue "a" none, .tick 10])).buckets =
      some { limit := 1, remaining := 1, resetAt := 0, windowMs := 0,
             queue := [{ seq := 1, attempts := 1, deadline := none, notBefore := 0 }],
             inflight := none, pausedUntil := 0 } ∧
    ((0 : Nat), Resolution.timeout) ∈ (sweepStep (run ⟨3, 100, 1000⟩ 10 1000
        [.enqueue "a" (some 5), .enqueue "a" none, .tick 10])).resolved ∧
    (resolvedSeqs (sweepStep (run ⟨3, 100, 1000⟩ 10 1000
        [.enqueue "a" (some 5), .enqueue "a" none, .tick 10]))).count 0 = 1 ∧
    (0 : Nat) ∉ (((runFrom (sweepStep (run ⟨3, 100, 1000⟩ 10 1000
        [.enqueue "a" (some 5), .enqueue "a" none, .tick 10])) [.dispatch "a"]).dispatchLog.drop
      (sweepStep (run ⟨3, 100, 1000⟩ 10 1000
        [.enqueue "a" (some 5), .enqueue "a" none, .tick 10])).dispatchLog.length).map
        Prod.snd) := by
  have h := C7_deadline_timeout ⟨3, 100, 1000⟩ 10 1000
    [.enqueue "a" (some 5), .enqueue "a" none, .tick 10]
  have h1 := h.1 "a"
    { limit := 1, remaining := 1, resetAt := 0, windowMs := 0,
      queue := [{ seq := 0, attempts := 1, deadline := some 5, notBefore := 0 },
                { seq := 1, attempts := 1, deadline := none, notBefore := 0 }],
      inflight := none, pausedUntil := 0 }
    (by decide)
  have h2 := h.2.1 "a"
    { limit := 1, remaining := 1, resetAt := 0, windowMs := 0,
      queue := [{ seq := 0, attempts := 1, deadline := some 5, notBefore := 0 },
                { seq := 1, attempts := 1, deadline := none, notBefore := 0 }],
      inflight := none, pausedUntil := 0 }
    { seq := 0, attempts := 1, deadline := some 5, notBefore := 0 }
    (by decide) (by decide) (by decide)
  have h3 := h.2.2 0 (List.mem_map_of_mem Prod.fst h2.1) [.dispatch "a"]
  refine ⟨?_, h2.1, h2.2, h3⟩
  rw [h1]
  decide

end RateLimit

/-! ### Claim theorems for `src/context.ts` -/

/-- C8: once more than 15 minutes have passed since `invokedAt` the
`expired` getter is true, and `send`, `edit` (hence `editOriginal`) and
`delete` all throw `Error('This interaction has expired')` without issuing
any response or request. -/
theorem C8_expired_throws (ctx : CommandContext) (now : Nat)
    (h : ctx.invokedAt + 1000 * 60 * 15 < now) :
    ctx.expired now = true ∧
    (∀ c o d, ctx.send now c o d = (.error "This interaction has expired", [])) ∧
    (∀ m c o d, ctx.edit now m c o d = (.error "This interaction has expired", [])) ∧
    (∀ c o d, ctx.editOriginal now c o d = (.error "This interaction has expired", [])) ∧
    (∀ m, ctx.delete now m = (.error "This interaction has expired", [])) := by
  have he : ctx.expired now = true := by
    unfold CommandContext.expired
    exact decide_eq_true h
  refine ⟨he, ?_, ?_, ?_, ?_⟩
  · intro c o d
    unfold CommandContext.send
    rw [if_pos he]
  · intro m c o d
    unfold CommandContext.edit
    rw [if_pos he]
  · intro c o d
    unfold CommandContext.editOriginal CommandContext.edit
    rw [if_pos he]
  · intro m
    unfold CommandContext.delete
    rw [if_pos he]

/-- Witness for C8: a context invoked at time 0 queried at 900001 ms (15
minutes and 1 ms later) is expired and all four methods throw without
effects. -/
theorem C8_witness :
    CommandContext.expired ⟨"app", "tok", 0, false, ⟨""⟩⟩ 900001 = true ∧
    CommandContext.send ⟨"app", "tok", 0, false, ⟨""⟩⟩ 900001 (.str "hi") none "" =
      (.error "This interaction has expired", []) ∧
    CommandContext.delete ⟨"app", "tok", 0, false, ⟨""⟩⟩ 900001 none =
      (.error "This interaction has expired", []) := by
  have h := C8_expired_throws ⟨"app", "tok", 0, false, ⟨""⟩⟩ 900001 (by decide)
  exact ⟨h.1, h.2.1 (.str "hi") none "", h.2.2.2.2 none⟩

theorem send_spec (ctx : CommandContext) (now : Nat) (c : ContentArg)
    (o : Option MessageOptions) (d : ApiData) :
    (∃ msg, ctx.send now c o d = (.error msg, [])) ∨
    (ctx.initiallyResponded = false ∧ ∃ p,
      ctx.send now c o d =
        (.ok (.initial true, { ctx with initiallyResponded := true }), [.respond p])) ∨
    (ctx.initiallyResponded = true ∧ ∃ m u a bdy,
      ctx.send now c o d = (.ok (.followUp m, ctx), [.request "POST" u a bdy])) := by
  unfold CommandContext.send
  split
  · exact Or.inl ⟨_, rfl⟩
  · split
    · exact Or.inl ⟨_, rfl⟩
    · split
      next hir =>
        exact Or.inr (Or.inl ⟨hir, _, rfl⟩)
      next hir =>
        have hir' : ctx.initiallyResponded = true := by
          cases hi : ctx.initiallyResponded with
          | false => exact absurd hi hir
          | true => rfl
        exact Or.inr (Or.inr ⟨hir', _, _, _, _, rfl⟩)

theorem acknowledge_spec (ctx : CommandContext) (inc : Bool) :
    (ctx.initiallyResponded = false ∧ ∃ p,
      ctx.acknowledge inc =
        (true, { ctx with initiallyResponded := true }, [.respond p])) ∨
    (ctx.initiallyResponded = true ∧ ctx.acknowledge inc = (false, ctx, [])) := by
  unfold CommandContext.acknowledge
  split
  next hir => exact Or.inl ⟨hir, _, rfl⟩
  next hir =>
    have hir' : ctx.initiallyResponded = true := by
      cases hi : ctx.initiallyResponded with
      | false => exact absurd hi hir
      | true => rfl
    exact Or.inr ⟨hir', rfl⟩

theorem edit_respondCount (ctx : CommandContext) (now : Nat) (m : String)
    (c : EditContentArg) (o : Option EditMessageOptions) (d : ApiData) :
    respondCount (ctx.edit now m c o d).2 = 0 := by
  unfold CommandContext.edit
  split
  · rfl
  · split
    · rfl
    · simp [respondCount]

theorem delete_respondCount (ctx : CommandContext) (now : Nat) (m : Option String) :
    respondCount (ctx.delete now m).2 = 0 := by
  unfold CommandContext.delete
  split
  · rfl
  · simp [respondCount]

theorem ctxStep_send_eq (ctx : CommandContext) (now : Nat) (cc : ContentArg)
    (o : Option MessageOptions) (d : ApiData) {e : Except String (SendResult × CommandContext)}
    {effs : List Effect} (hs : ctx.send now cc o d = (e, effs)) :
    ctxStep ctx (.send now cc o d) =
      (match e with | .ok (_, ctx') => ctx' | .error _ => ctx, effs) := by
  cases e with
  | error msg =>
    show (match ctx.send now cc o d with
      | (.ok (_, ctx'), effs) => (ctx', effs)
      | (.error _, effs) => (ctx, effs)) = (ctx, effs)
    rw [hs]
  | ok p =>
    obtain ⟨res, ctx'⟩ := p
    show (match ctx.send now cc o d with
      | (.ok (_, ctx'), effs) => (ctx', effs)
      | (.error _, effs) => (ctx, effs)) = (ctx', effs)
    rw [hs]

theorem ctxStep_potential (ctx : CommandContext) (c : CtxCall) :
    respondCount (ctxStep ctx c).2 +
      (if (ctxStep ctx c).1.initiallyResponded = true then 0 else 1) ≤
      (if ctx.initiallyResponded = true then 0 else 1) := by
  cases c with
  | send now cc o d =>
    rcases send_spec ctx now cc o d with ⟨msg, hs⟩ | ⟨hir, p, hs⟩ | ⟨hir, m, u, a, bdy, hs⟩
    · rw [ctxStep_send_eq ctx now cc o d hs]
      simp [respondCount]
    · rw [ctxStep_send_eq ctx now cc o d hs, hir]
      simp [respondCount]
    · rw [ctxStep_send_eq ctx now cc o d hs, hir]
      simp [respondCount]
  | acknowledge inc =>
    have hstep : ctxStep ctx (.acknowledge inc) =
        ((ctx.acknowledge inc).2.1, (ctx.acknowledge inc).2.2) := rfl
    rcases acknowledge_spec ctx inc with ⟨hir, p, hs⟩ | ⟨hir, hs⟩
    · rw [hstep, hs, hir]
      simp [respondCount]
    · rw [hstep, hs, hir]
      simp [respondCount]
  | edit now m cc o d =>
    have hstep : ctxStep ctx (.edit now m cc o d) = (ctx, (ctx.edit now m cc o d).2) := rfl
    rw [hstep, edit_respondCount]
    simp
  | editOriginal now cc o d =>
    have hstep : ctxStep ctx (.editOriginal now cc o d) =
        (ctx, (ctx.editOriginal now cc o d).2) := rfl
    rw [hstep]
    unfold CommandContext.editOriginal
    rw [edit_respondCount]
    simp
  | delete now m =>
    have hstep : ctxStep ctx (.delete now m) = (ctx, (ctx.delete now m).2) := rfl
    rw [hstep, delete_respondCount]
    simp

theorem respondCount_append (l m : List Effect) :
    respondCount (l ++ m) = respondCount l + respondCount m := by
  simp [respondCount, List.filter_append]

theorem ctxRun_potential (calls : List CtxCall) :
    ∀ ctx : CommandContext,
    respondCount (ctxRun ctx calls).2 +
      (if (ctxRun ctx calls).1.initiallyResponded = true then 0 else 1) ≤
      (if ctx.initiallyResponded = true then 0 else 1) := by
  induction calls with
  | nil =>
    intro ctx
    simp [ctxRun, respondCount]
  | cons c rest ih =>
    intro ctx
    show respondCount ((ctxStep ctx c).2 ++ (ctxRun (ctxStep ctx c).1 rest).2) + _ ≤ _
    rw [respondCount_append]
    have hg : (ctxRun ctx (c :: rest)).1 = (ctxRun (ctxStep ctx c).1 rest).1 := rfl
    rw [hg]
    have h1 := ctxStep_potential ctx c
    have h2 := ih (ctxStep ctx c).1
    omega

/-- C9: a `CommandContext` issues at most one initial interaction response.
Starting un-responded, any sequence of calls invokes `_respond` at most once;
the first successful `send` or `acknowledge` calls `_respond` once, returns
`true` and sets `initiallyResponded`; once `initiallyResponded` is true,
`acknowledge` returns `false` without responding, a successful `send` takes
the follow-up path (a `Message`, never `true`), and over any further call
sequence the flag stays true and `_respond` is never called again. -/
theorem C9_single_initial_response (ctx : CommandContext) :
    (ctx.initiallyResponded = false →
      (∀ calls, respondCount (ctxRun ctx calls).2 ≤ 1) ∧
      (∀ inc, (ctx.acknowledge inc).1 = true ∧
        (ctx.acknowledge inc).2.1.initiallyResponded = true ∧
        respondCount (ctx.acknowledge inc).2.2 = 1) ∧
      (∀ now c o d e effs, ctx.send now c o d = (e, effs) →
        ∀ res ctx', e = .ok (res, ctx') →
          res = .initial true ∧ ctx'.initiallyResponded = true ∧
          respondCount effs = 1)) ∧
    (ctx.initiallyResponded = true →
      (∀ inc, ctx.acknowledge inc = (false, ctx, [])) ∧
      (∀ now c o d e effs, ctx.send now c o d = (e, effs) →
        ∀ res ctx', e = .ok (res, ctx') →
          (∃ m, res = .followUp m) ∧ ctx'.initiallyResponded = true ∧
          respondCount effs = 0) ∧
      (∀ calls, (ctxRun ctx calls).1.initiallyResponded = true ∧
        respondCount (ctxRun ctx calls).2 = 0)) := by
  constructor
  · intro hf
    refine ⟨?_, ?_, ?_⟩
    · intro calls
      have h := ctxRun_potential calls ctx
      rw [hf] at h
      simp only [Bool.false_eq_true, if_false] at h
      omega
    · intro inc
      rcases acknowledge_spec ctx inc with ⟨-, p, hs⟩ | ⟨hir, -⟩
      · rw [hs]
        exact ⟨rfl, rfl, by simp [respondCount]⟩
      · rw [hf] at hir
        exact absurd hir (by simp)
    · intro now c o d e effs hsend res ctx' he
      rcases send_spec ctx now c o d with ⟨msg, hs⟩ | ⟨-, p, hs⟩ | ⟨hir, m, u, a, bdy, hs⟩
      · have hpair := hs.symm.trans hsend
        injection hpair with h1 h2
        rw [he] at h1
        exact absurd h1 (by simp)
      · have hpair := hs.symm.trans hsend
        injection hpair with h1 h2
        rw [he] at h1
        injection h1 with h1
        injection h1 with hres hctx
        refine ⟨hres.symm, ?_, ?_⟩
        · rw [← hctx]
        · rw [← h2]
          simp [respondCount]
      · rw [hf] at hir
        exact absurd hir (by simp)
  · intro ht
    refine ⟨?_, ?_, ?_⟩
    · intro inc
      rcases acknowledge_spec ctx inc with ⟨hir, -, -⟩ | ⟨-, hs⟩
      · rw [ht] at hir
        exact absurd hir (by simp)
      · exact hs
    · intro now c o d e effs hsend res ctx' he
      rcases send_spec ctx now c o d with ⟨msg, hs⟩ | ⟨hir, p, hs⟩ | ⟨-, m, u, a, bdy, hs⟩
      · have hpair := hs.symm.trans hsend
        injection hpair with h1 h2
        rw [he] at h1
        exact absurd h1 (by simp)
      · rw [ht] at hir
        exact absurd hir (by simp)
      · have hpair := hs.symm.trans hsend
        injection hpair with h1 h2
        rw [he] at h1
        injection h1 with h1
        injection h1 with hres hctx
        refine ⟨⟨m, hres.symm⟩, ?_, ?_⟩
        · rw [← hctx]
          exact ht
        · rw [← h2]
          simp [respondCount]
    · intro calls
      have h := ctxRun_potential calls ctx
      rw [ht] at h
      simp only [if_true] at h
      constructor
      · by_cases hfin : (ctxRun ctx calls).1.initiallyResponded = true
        · exact hfin
        · rw [if_neg hfin] at h
          omega
      · omega

/-- Witness for C9: a concrete un-responded context runs three calls and
responds exactly once; a concrete already-responded context rejects
`acknowledge` and never responds over a further call sequence. -/
theorem C9_witness :
    respondCount (ctxRun ⟨"app", "tok", 0, false, ⟨""⟩⟩
      [.acknowledge false, .send 1 (.str "hi") none "", .acknowledge true]).2 ≤ 1 ∧
    CommandContext.acknowledge ⟨"app", "tok", 0, true, ⟨""⟩⟩ true =
      (false, ⟨"app", "tok", 0, true, ⟨""⟩⟩, []) ∧
    (ctxRun ⟨"app", "tok", 0, true, ⟨""⟩⟩
      [.send 1 (.str "hi") none "", .acknowledge false]).1.initiallyResponded = true ∧
    respondCount (ctxRun ⟨"app", "tok", 0, true, ⟨""⟩⟩
      [.send 1 (.str "hi") none "", .acknowledge false]).2 = 0 := by
  have h1 := C9_single_initial_response ⟨"app", "tok", 0, false, ⟨""⟩⟩
  have h2 := C9_single_initial_response ⟨"app", "tok", 0, true, ⟨""⟩⟩
  exact ⟨(h1.1 rfl).1 _, (h2.2 rfl).1 true, ((h2.2 rfl).2.2 _).1, ((h2.2 rfl).2.2 _).2⟩

theorem getKey_assign_self (m : List (String × ConvertedOption)) (k : String)
    (v : ConvertedOption) : getKey (assignKey m k v) k = some v := by
  induction m with
  | nil => simp [assignKey, getKey]
  | cons kv rest ih =>
    by_cases hk : kv.1 = k
    · simp [assignKey, hk, getKey]
    · simp [assignKey, hk, getKey, ih]

theorem getKey_assign_ne {n k : String} (h : n ≠ k)
    (m : List (String × ConvertedOption)) (v : ConvertedOption) :
    getKey (assignKey m n v) k = getKey m k := by
  induction m with
  | nil => simp [assignKey, getKey, h]
  | cons kv rest ih =>
    by_cases hk : kv.1 = n
    · simp [assignKey, hk, getKey, h]
    · simp [assignKey, hk, getKey, ih]

theorem convertOptionsFrom_nil (acc : List (String × ConvertedOption)) :
    convertOptionsFrom acc [] = acc := by
  simp [convertOptionsFrom]

theorem convertOptionsFrom_cons_subs (acc : List (String × ConvertedOption))
    (n : String) (v : Option OptionValue) (os : List CommandOption)
    (rest : List CommandOption) :
    convertOptionsFrom acc (CommandOption.mk n v (some os) :: rest) =
      convertOptionsFrom (assignKey acc n (.obj (convertOptions os))) rest := by
  simp [convertOptionsFrom, convertOptions]

theorem convertOptionsFrom_cons_val {acc : List (String × ConvertedOption)}
    {n : String} {jv : OptionValue} (rest : List CommandOption) :
    convertOptionsFrom acc (CommandOption.mk n (some jv) none :: rest) =
      convertOptionsFrom (if jv.truthy then assignKey acc n (.ofValue jv) else acc) rest := by
  by_cases h : jv.truthy = true
  · simp [convertOptionsFrom, h]
  · simp [convertOptionsFrom, h]

theorem convertOptionsFrom_cons_none (acc : List (String × ConvertedOption))
    (n : String) (rest : List CommandOption) :
    convertOptionsFrom acc (CommandOption.mk n none none :: rest) =
      convertOptionsFrom acc rest := by
  simp [convertOptionsFrom]

theorem getKey_convertOptionsFrom_not_mem {k : String} {opts : List CommandOption}
    (h : ∀ o ∈ opts, o.name ≠ k) :
    ∀ acc, getKey (convertOptionsFrom acc opts) k = getKey acc k := by
  induction opts with
  | nil =>
    intro acc
    rw [convertOptionsFrom_nil]
  | cons o rest ih =>
    intro acc
    obtain ⟨n, v, subs⟩ := o
    have hn : n ≠ k := h _ (List.mem_cons_self _ _)
    have hrest : ∀ o ∈ rest, o.name ≠ k := fun o ho => h o (List.mem_cons_of_mem _ ho)
    cases subs with
    | some os =>
      rw [convertOptionsFrom_cons_subs, ih hrest, getKey_assign_ne hn]
    | none =>
      cases v with
      | some jv =>
        rw [convertOptionsFrom_cons_val, ih hrest]
        by_cases hjv : jv.truthy = true
        · rw [if_pos hjv, getKey_assign_ne hn]
        · rw [if_neg hjv]
      | none =>
        rw [convertOptionsFrom_cons_none, ih hrest]

theorem specConvertedOption_congr {o : CommandOption}
    {f1 f2 : Option ConvertedOption} (h : f1 = f2) :
    specConvertedOption f1 o = specConvertedOption f2 o := by
  rw [h]

theorem getKey_convertOptionsFrom {opts : List CommandOption} :
    ∀ {acc : List (String × ConvertedOption)},
    (opts.map CommandOption.name).Nodup → ∀ o ∈ opts,
    getKey (convertOptionsFrom acc opts) o.name =
      specConvertedOption (getKey acc o.name) o := by
  induction opts with
  | nil =>
    intro acc h o ho
    simp at ho
  | cons o0 rest ih =>
    intro acc hnd o ho
    obtain ⟨n0, v0, subs0⟩ := o0
    rw [List.map_cons, List.nodup_cons] at hnd
    rcases List.mem_cons.1 ho with rfl | hor
    · have hrestne : ∀ q ∈ rest, q.name ≠ n0 := by
        intro q hq he
        have hmem : q.name ∈ rest.map CommandOption.name :=
          List.mem_map_of_mem CommandOption.name hq
        rw [he] at hmem
        exact hnd.1 hmem
      show getKey (convertOptionsFrom acc (CommandOption.mk n0 v0 subs0 :: rest)) n0 =
        specConvertedOption (getKey acc n0) (CommandOption.mk n0 v0 subs0)
      cases subs0 with
      | some os =>
        rw [convertOptionsFrom_cons_subs,
          getKey_convertOptionsFrom_not_mem hrestne, getKey_assign_self]
        rfl
      | none =>
        cases v0 with
        | some jv =>
          rw [convertOptionsFrom_cons_val, getKey_convertOptionsFrom_not_mem hrestne]
          by_cases hjv : jv.truthy = true
          · rw [if_pos hjv, getKey_assign_self]
            show _ = (if jv.truthy then some (ConvertedOption.ofValue jv) else getKey acc n0)
            rw [if_pos hjv]
          · rw [if_neg hjv]
            show getKey acc n0 =
              (if jv.truthy then some (ConvertedOption.ofValue jv) else getKey acc n0)
            rw [if_neg hjv]
        | none =>
          rw [convertOptionsFrom_cons_none, getKey_convertOptionsFrom_not_mem hrestne]
          rfl
    · have hne : n0 ≠ o.name := by
        intro he
        have hmem : o.name ∈ rest.map CommandOption.name :=
          List.mem_map_of_mem CommandOption.name hor
        rw [← he] at hmem
        exact hnd.1 hmem
      cases subs0 with
      | some os =>
        rw [convertOptionsFrom_cons_subs, ih hnd.2 o hor]
        exact specConvertedOption_congr (getKey_assign_ne hne _ _)
      | none =>
        cases v0 with
        | some jv =>
          rw [convertOptionsFrom_cons_val, ih hnd.2 o hor]
          by_cases hjv : jv.truthy = true
          · rw [if_pos hjv]
            exact specConvertedOption_congr (getKey_assign_ne hne _ _)
          · rw [if_neg hjv]
        | none =>
          rw [convertOptionsFrom_cons_none, ih hnd.2 o hor]

/-- C10: for a list of command options with distinct names, `convertOptions`
maps each option with sub-options (even an empty array) to the recursive
conversion of those sub-options, maps each sub-option-free option with a
truthy value to that value, and silently omits every sub-option-free option
whose value is falsy or missing - such names are absent from the returned
record. -/
theorem C10_convertOptions_mapping (opts : List CommandOption)
    (hnd : (opts.map CommandOption.name).Nodup) (o : CommandOption) (ho : o ∈ opts) :
    getKey (convertOptions opts) o.name = specConvertedOption none o ∧
    (∀ os, o.subs = some os →
      getKey (convertOptions opts) o.name = some (.obj (convertOptions os))) ∧
    (∀ jv, o.subs = none → o.value = some jv → jv.truthy = true →
      getKey (convertOptions opts) o.name = some (.ofValue jv)) ∧
    (o.subs = none → (o.value = none ∨ ∃ jv, o.value = some jv ∧ jv.truthy = false) →
      getKey (convertOptions opts) o.name = none) := by
  have hmain : getKey (convertOptions opts) o.name = specConvertedOption none o := by
    show getKey (convertOptionsFrom [] opts) o.name = _
    rw [getKey_convertOptionsFrom hnd o ho]
    rfl
  refine ⟨hmain, ?_, ?_, ?_⟩
  · intro os hs
    rw [hmain]
    simp [specConvertedOption, hs]
  · intro jv hs hv htr
    rw [hmain]
    simp [specConvertedOption, hs, hv, htr]
  · intro hs hval
    rw [hmain]
    rcases hval with hv | ⟨jv, hv, hf⟩
    · simp [specConvertedOption, hs, hv]
    · simp [specConvertedOption, hs, hv, hf]

/-- Witness for C10 on a concrete option list: a sub-command maps to the
conversion of its sub-options, a truthy string value is kept, and a `false`
boolean option is silently omitted. -/
theorem C10_witness :
    getKey (convertOptions
      [CommandOption.mk "sub" none (some [CommandOption.mk "x" (some (.num 5)) none]),
       CommandOption.mk "flag" (some (.bool false)) none,
       CommandOption.mk "msg" (some (.str "hi")) none]) "sub" =
      some (.obj (convertOptions [CommandOption.mk "x" (some (.num 5)) none])) ∧
    getKey (convertOptions
      [CommandOption.mk "sub" none (some [CommandOption.mk "x" (some (.num 5)) none]),
       CommandOption.mk "flag" (some (.bool false)) none,
       CommandOption.mk "msg" (some (.str "hi")) none]) "flag" = none ∧
    getKey (convertOptions
      [CommandOption.mk "sub" none (some [CommandOption.mk "x" (some (.num 5)) none]),
       CommandOption.mk "flag" (some (.bool false)) none,
       CommandOption.mk "msg" (some (.str "hi")) none]) "msg" =
      some (.str "hi") := by
  have hnd : ((
      [CommandOption.mk "sub" none (some [CommandOption.mk "x" (some (.num 5)) none]),
       CommandOption.mk "flag" (some (.bool false)) none,
       CommandOption.mk "msg" (some (.str "hi")) none]).map CommandOption.name).Nodup := by
    simp [CommandOption.name]
  have h1 := C10_convertOptions_mapping _ hnd
    (CommandOption.mk "sub" none (some [CommandOption.mk "x" (some (.num 5)) none]))
    (List.mem_cons_self _ _)
  have h2 := C10_convertOptions_mapping _ hnd
    (CommandOption.mk "flag" (some (.bool false)) none)
    (List.mem_cons_of_mem _ (List.mem_cons_self _ _))
  have h3 := C10_convertOptions_mapping _ hnd
    (CommandOption.mk "msg" (some (.str "hi")) none)
    (List.mem_cons_of_mem _ (List.mem_cons_of_mem _ (List.mem_cons_self _ _)))
  refine ⟨h1.2.1 _ rfl, ?_, h3.2.2.1 (.str "hi") rfl rfl (by decide)⟩
  exact h2.2.2.2 rfl (Or.inr ⟨.bool false, rfl, rfl⟩)

end SlashCreate
